import Mathlib

/-!
Verification development for the github-activity-metrics collection and
aggregation pipeline.  The Go sources are shallowly embedded: pure fragments
become Lean functions, the mutex/wait behaviour of the rate limiter becomes an
explicit action trace, the SQL storage adapters become functions on row lists,
and the concurrent orchestrator becomes a sequentialized run function plus a
small-step transition system for the worker pool.
-/

namespace GHMetrics

/-! ### Rate limiter (internal/collector/rate_limiter.go)

Model of githubRateLimiter.  Instants and durations are integers in
nanoseconds, mirroring Go time.Time / time.Duration. -/

namespace RateLimiter

/-- Mirror of time.Hour in nanoseconds, used by Wait and NewRateLimiter. -/
def hourNs : Int := 3600 * 1000000000

/-- Mirror of the minDelay field set by NewRateLimiter: 100 * time.Millisecond. -/
def minDelayNs : Int := 100 * 1000000

/-- State of a githubRateLimiter: the remaining field, the resetTime field and
the lastCall field.  The minDelay field is always the constant minDelayNs. -/
structure State where
  remaining : Int
  resetTime : Int
  lastCall : Int
deriving Repr, DecidableEq

/-- Mirror of NewRateLimiter: remaining 5000 (GitHub API default limit),
resetTime now+1h; lastCall starts as the zero value of time.Time, modelled as
instant 0. -/
def newState (now : Int) : State :=
  { remaining := 5000, resetTime := now + hourNs, lastCall := 0 }

/-- One atomic action performed by Wait, in program order: mutex operations and
suspensions.  waitUntil t suspends the caller until instant t (the
time.After(waitDuration) branch); waitFor d suspends for duration d (the
time.After(minDelay - elapsed) branch). -/
inductive Action where
  | lock
  | unlock
  | waitUntil (t : Int)
  | waitFor (d : Int)
deriving Repr, DecidableEq

/-- Result of one call to Wait: the trace of actions including the initial
mu.Lock and the deferred final mu.Unlock, the instant at which Wait returns,
and the updated limiter state. -/
structure WaitResult where
  trace : List Action
  returnTime : Int
  state : State
deriving Repr, DecidableEq

/-- Shallow embedding of githubRateLimiter.Wait on the uncancelled path (the
context is never done).  Follows the source line by line: lock; if
remaining <= 10 then (if the reset is in the future, unlock, sleep until
resetTime, relock) and reset remaining to 5000 and resetTime to now+1h; then
enforce the minimum delay since lastCall (again unlocking around the sleep);
finally set lastCall to the current instant and return (deferred unlock). -/
def wait (s : State) (now : Int) : WaitResult :=
  let lowBudget :=
    if s.remaining ≤ 10 then
      let waitDuration := s.resetTime - now
      let afterWait :=
        if 0 < waitDuration then
          ([Action.unlock, Action.waitUntil s.resetTime, Action.lock], s.resetTime)
        else
          (([] : List Action), now)
      (afterWait.1, afterWait.2,
        { s with remaining := 5000, resetTime := afterWait.2 + hourNs })
    else
      (([] : List Action), now, s)
  let tr1 := lowBudget.1
  let now1 := lowBudget.2.1
  let s1 := lowBudget.2.2
  let elapsed := now1 - s1.lastCall
  let minWait :=
    if elapsed < minDelayNs then
      ([Action.unlock, Action.waitFor (minDelayNs - elapsed), Action.lock],
        now1 + (minDelayNs - elapsed))
    else
      (([] : List Action), now1)
  { trace := Action.lock :: tr1 ++ minWait.1 ++ [Action.unlock]
    returnTime := minWait.2
    state := { s1 with lastCall := minWait.2 } }

/-- Check that every suspension in a trace happens while the mutex is free.
The first argument counts mutex acquisitions currently in force. -/
def suspensionsUnlocked : Nat → List Action → Bool
  | _, [] => true
  | d, Action.lock :: rest => suspensionsUnlocked (d + 1) rest
  | d, Action.unlock :: rest => suspensionsUnlocked (d - 1) rest
  | d, Action.waitUntil _ :: rest => d == 0 && suspensionsUnlocked d rest
  | d, Action.waitFor _ :: rest => d == 0 && suspensionsUnlocked d rest

end RateLimiter

/-! ### Time-series aggregation (sqliteStorage.getTimeSeries and
fillTimeSeriesGaps in internal/storage/sqlite)

Calendar timestamps are embedded as explicit (year, month, day, second-of-day)
records; comparing two time.Time values in one location is the lexicographic
comparison of these fields, realised through an injective numeric key. -/

namespace TimeSeries

/-- Gregorian leap-year rule, as implemented by Go time.Date normalisation. -/
def isLeapYear (y : Nat) : Bool :=
  (y % 4 == 0 && y % 100 != 0) || y % 400 == 0

/-- Number of days of month m of year y (months are 1-12). -/
def daysInMonth (y m : Nat) : Nat :=
  if m = 2 then (if isLeapYear y then 29 else 28)
  else if m = 4 ∨ m = 6 ∨ m = 9 ∨ m = 11 then 30
  else 31

/-- A calendar date, the Year()/Month()/Day() fields of a time.Time. -/
structure Date where
  year : Nat
  month : Nat
  day : Nat
deriving Repr, DecidableEq

/-- Injective key, monotone for the calendar order on in-range dates
(month <= 12 < 16 and day <= 31 < 32 keep the digits separate). -/
def Date.key (d : Date) : Nat := d.year * 512 + d.month * 32 + d.day

/-- A date is in range: month 1-12 and day 1-daysInMonth. -/
def Date.InRange (d : Date) : Prop :=
  1 ≤ d.month ∧ d.month ≤ 12 ∧ 1 ≤ d.day ∧ d.day ≤ daysInMonth d.year d.month

instance (d : Date) : Decidable d.InRange := by
  unfold Date.InRange; infer_instance

/-- A full timestamp: a date plus the second within the day. -/
structure Timestamp where
  date : Date
  sec : Nat
deriving Repr, DecidableEq

/-- Injective key for timestamps (sec < 86400 <= 131072 = 2^17). -/
def Timestamp.key (t : Timestamp) : Nat := t.date.key * 131072 + t.sec

/-- Mirror of domain.TimeRange: window start, window end and the granularity
string ("day", "week", "month" per the source comment; getTimeSeries treats
anything but "day" and "month" as "day"). -/
structure TimeRange where
  start : Timestamp
  stop : Timestamp
  granularity : String
deriving Repr, DecidableEq

/-- Relevant columns of one row of the events table: type, owner, repo,
member, timestamp, and the additions/deletions attributes stored in the JSON
data column (json_extract returns them for commit rows). -/
structure EventRow where
  type : String
  owner : String
  repo : String
  member : String
  timestamp : Timestamp
  additions : Int
  deletions : Int
deriving Repr, DecidableEq

/-- Mirror of domain.DetailedTimeSeriesMetric.  The Timestamp field is the
period start parsed back from the SQL period string, hence a plain date. -/
structure DetailedTimeSeriesMetric where
  timestamp : Date
  commits : Int
  prs : Int
  additions : Int
  deletions : Int
  deploys : Int
deriving Repr, DecidableEq

/-- Mirror of truncateTimeForGranularity: "day" snaps to midnight of the same
date (on a bare date this is the identity), "month" snaps to the first of the
month, and any other granularity falls through to the "day" behaviour. -/
def truncateTimeForGranularity (d : Date) (g : String) : Date :=
  if g = "day" then d
  else if g = "month" then { year := d.year, month := d.month, day := 1 }
  else d

/-- Truncating a full timestamp drops the time of day first (midnight of the
same calendar date), then truncates the date. -/
def truncateTs (t : Timestamp) (g : String) : Date :=
  truncateTimeForGranularity t.date g

/-- Day successor with month and year rollover, the AddDate(0, 0, 1)
normalisation on a midnight date. -/
def nextDay (d : Date) : Date :=
  if d.day < daysInMonth d.year d.month then
    { year := d.year, month := d.month, day := d.day + 1 }
  else if d.month < 12 then { year := d.year, month := d.month + 1, day := 1 }
  else { year := d.year + 1, month := 1, day := 1 }

/-- Mirror of getNextPeriodForGranularity: "day" adds one day, "month" adds
one month (AddDate(0, 1, 0); the function is only applied to period starts,
whose day is 1 under month granularity, so Go's day-overflow normalisation
cannot trigger), anything else falls through to one day. -/
def getNextPeriodForGranularity (d : Date) (g : String) : Date :=
  if g = "day" then nextDay d
  else if g = "month" then
    (if d.month < 12 then { year := d.year, month := d.month + 1, day := d.day }
     else { year := d.year + 1, month := 1, day := d.day })
  else nextDay d

/-- Invariant maintained by the gap-filling loop: the running period start is
an in-range date whose day is 1 under month granularity (truncation
establishes it, stepping preserves it). -/
def PeriodStart (g : String) (d : Date) : Prop :=
  d.InRange ∧ (g = "month" → d.day = 1)

/-- Fuel-indexed unfolding of the gap-filling loop fragment
"for !current.After(end) { ...; current = getNextPeriod... }" that generates
the sequence of period starts.  The fuel only bounds the iteration count; the
wrapper genPeriods supplies enough for every in-range date. -/
def genPeriodsAux (g : String) (stop : Date) : Nat → Date → List Date
  | 0, _ => []
  | fuel + 1, cur =>
    if cur.key ≤ stop.key then
      cur :: genPeriodsAux g stop fuel (getNextPeriodForGranularity cur g)
    else []

/-- All period starts from cur to stop inclusive, stepping by one granularity
unit. -/
def genPeriods (g : String) (cur stop : Date) : List Date :=
  genPeriodsAux g stop (stop.key + 1 - cur.key) cur

/-- First-match association lookup used to model the existingMap Go map; the
list is built in reverse write order so that the first match is the last
write, matching Go map overwrite semantics. -/
def lookupDate :
    List (Date × DetailedTimeSeriesMetric) → Date → Option DetailedTimeSeriesMetric
  | [], _ => none
  | (k, v) :: rest, d => if k = d then some v else lookupDate rest d

/-- The all-zero data point emitted for a period with no events. -/
def zeroMetric (p : Date) : DetailedTimeSeriesMetric :=
  { timestamp := p, commits := 0, prs := 0, additions := 0, deletions := 0,
    deploys := 0 }

/-- Mirror of sqliteStorage.fillTimeSeriesGaps: if there are no data points
the input is returned unchanged (this is the early return on
len(dataPoints) == 0); otherwise every period start between the truncated
window bounds is emitted, taking the existing data point for its period when
one exists and an all-zero point otherwise. -/
def fillTimeSeriesGaps (dataPoints : List DetailedTimeSeriesMetric)
    (tr : TimeRange) : List DetailedTimeSeriesMetric :=
  if dataPoints.isEmpty then dataPoints
  else
    let existing := (dataPoints.map
      (fun dp => (truncateTimeForGranularity dp.timestamp tr.granularity, dp))).reverse
    (genPeriods tr.granularity (truncateTs tr.start tr.granularity)
        (truncateTs tr.stop tr.granularity)).map
      (fun p =>
        match lookupDate existing p with
        | some dp => dp
        | none => zeroMetric p)

/-- The period string computed by the SQL dateFormat expression, parsed back
to a date: date(timestamp) for "day", strftime year-month plus "-01" for
"month", and date(timestamp) for any other granularity (the default case). -/
def sqlPeriod (g : String) (t : Timestamp) : Date :=
  if g = "day" then t.date
  else if g = "month" then { year := t.date.year, month := t.date.month, day := 1 }
  else t.date

/-- The WHERE clause of getTimeSeries: owner = org, timestamp between the
window bounds (inclusive), and the repo/member equality filters that are only
added when the corresponding argument is nonempty. -/
def rowMatches (org repo member : String) (tr : TimeRange) (e : EventRow) : Bool :=
  e.owner == org &&
  decide (tr.start.key ≤ e.timestamp.key) &&
  decide (e.timestamp.key ≤ tr.stop.key) &&
  (repo == "" || e.repo == repo) &&
  (member == "" || e.member == member)

/-- SUM(CASE WHEN type = t THEN 1 ELSE 0 END) over a list of rows. -/
def countType (t : String) (evs : List EventRow) : Int :=
  ((evs.filter (fun e => e.type == t)).length : Int)

/-- SUM(CASE WHEN type = 'commit' THEN f(row) ELSE 0 END) over a list of
rows. -/
def sumCommitField (f : EventRow → Int) (evs : List EventRow) : Int :=
  (evs.filter (fun e => e.type == "commit")).foldl (fun acc e => acc + f e) 0

/-- One grouped row of the getTimeSeries SELECT for period p: the counters for
the rows whose period is p. -/
def periodMetric (g : String) (evs : List EventRow) (p : Date) :
    DetailedTimeSeriesMetric :=
  let inP := evs.filter (fun e => sqlPeriod g e.timestamp == p)
  { timestamp := p
    commits := countType "commit" inP
    prs := countType "pull_request" inP
    additions := sumCommitField (fun e => e.additions) inP
    deletions := sumCommitField (fun e => e.deletions) inP
    deploys := countType "deploy" inP }

/-- Insert a date into a key-sorted list (ascending). -/
def insertByKey (d : Date) : List Date → List Date
  | [] => [d]
  | x :: xs => if d.key ≤ x.key then d :: x :: xs else x :: insertByKey d xs

/-- Insertion sort by ascending key, modelling ORDER BY period. -/
def sortByKey (l : List Date) : List Date := l.foldr insertByKey []

/-- The distinct periods of the filtered rows in ascending order: GROUP BY
period ORDER BY period. -/
def distinctPeriods (g : String) (evs : List EventRow) : List Date :=
  sortByKey ((evs.map (fun e => sqlPeriod g e.timestamp)).dedup)

/-- Mirror of sqliteStorage.getTimeSeries (its DataPoints field): filter the
events table, group by period with the aggregate counters, order by period,
then fill the gaps. -/
def getTimeSeries (events : List EventRow) (org repo member : String)
    (tr : TimeRange) : List DetailedTimeSeriesMetric :=
  let filtered := events.filter (rowMatches org repo member tr)
  let dataPoints :=
    (distinctPeriods tr.granularity filtered).map
      (periodMetric tr.granularity filtered)
  fillTimeSeriesGaps dataPoints tr

/-- A two-day sample window (2024-01-01 to 2024-01-02, day granularity) used
to evaluate the time-series model on concrete inputs. -/
def sampleRange : TimeRange :=
  { start := { date := { year := 2024, month := 1, day := 1 }, sec := 0 }
    stop := { date := { year := 2024, month := 1, day := 2 }, sec := 0 }
    granularity := "day" }

/-- A single stored commit row inside sampleRange. -/
def sampleEvents : List EventRow :=
  [{ type := "commit", owner := "acme", repo := "r", member := "m",
     timestamp := { date := { year := 2024, month := 1, day := 1 }, sec := 0 },
     additions := 3, deletions := 1 }]

/-- Mirror of GetOrgTimeSeries: organization scope. -/
def getOrgTimeSeries (events : List EventRow) (org : String) (tr : TimeRange) :
    List DetailedTimeSeriesMetric :=
  getTimeSeries events org "" "" tr

/-- Mirror of GetRepoTimeSeries: repository scope. -/
def getRepoTimeSeries (events : List EventRow) (org repo : String)
    (tr : TimeRange) : List DetailedTimeSeriesMetric :=
  getTimeSeries events org repo "" tr

/-- Mirror of GetMemberTimeSeries: member scope. -/
def getMemberTimeSeries (events : List EventRow) (org member : String)
    (tr : TimeRange) : List DetailedTimeSeriesMetric :=
  getTimeSeries events org "" member tr

end TimeSeries

/-! ### Rankings (sqliteStorage.GetMemberRanking / GetRepoRanking)

The four domain.RankingType constants switch between four SQL queries that
differ only in the value column; the default case is an error.  GROUP BY
iterates the subjects in an unspecified order (modelled as first appearance),
ORDER BY value DESC sorts non-strictly descending, LIMIT truncates, and the
scan loop assigns ranks 1, 2, ... in order. -/

namespace Ranking

open TimeSeries

/-- The domain.RankingType constants plus the default (error) case of the
switch. -/
inductive RankingType where
  | commits
  | prs
  | codeChanges
  | deploys
  | unknown (s : String)
deriving Repr, DecidableEq

/-- True for the four constants handled by the switch. -/
def RankingType.isKnown : RankingType → Bool
  | .unknown _ => false
  | _ => true

/-- Mirror of domain.MemberRanking as scanned by GetMemberRanking: rank,
member, value and the five aggregate counters. -/
structure MemberRanking where
  rank : Nat
  member : String
  value : Int
  commits : Int
  prs : Int
  additions : Int
  deletions : Int
  deploys : Int
deriving Repr, DecidableEq

/-- Mirror of domain.RepoRanking as scanned by GetRepoRanking: rank, repo,
value and the three aggregate counters. -/
structure RepoRanking where
  rank : Nat
  repo : String
  value : Int
  commits : Int
  prs : Int
  deploys : Int
deriving Repr, DecidableEq

/-- The value column selected by the query for a group of rows. -/
def rankingValue (rt : RankingType) (rows : List EventRow) : Int :=
  match rt with
  | .commits => countType "commit" rows
  | .prs => countType "pull_request" rows
  | .codeChanges => sumCommitField (fun e => e.additions + e.deletions) rows
  | .deploys => countType "deploy" rows
  | .unknown _ => 0

/-- One grouped row of the member ranking query for member m. -/
def memberAggregate (rt : RankingType) (evs : List EventRow) (m : String) :
    MemberRanking :=
  let rows := evs.filter (fun e => e.member == m)
  { rank := 0
    member := m
    value := rankingValue rt rows
    commits := countType "commit" rows
    prs := countType "pull_request" rows
    additions := sumCommitField (fun e => e.additions) rows
    deletions := sumCommitField (fun e => e.deletions) rows
    deploys := countType "deploy" rows }

/-- One grouped row of the repository ranking query for repo r. -/
def repoAggregate (rt : RankingType) (evs : List EventRow) (r : String) :
    RepoRanking :=
  let rows := evs.filter (fun e => e.repo == r)
  { rank := 0
    repo := r
    value := rankingValue rt rows
    commits := countType "commit" rows
    prs := countType "pull_request" rows
    deploys := countType "deploy" rows }

/-- Insert before the first strictly smaller value: one step of a descending
sort by value, as performed by ORDER BY value DESC (ties stay in group
order). -/
def insertDescBy {α : Type} (value : α → Int) (r : α) : List α → List α
  | [] => [r]
  | x :: xs =>
    if value x < value r then r :: x :: xs else x :: insertDescBy value r xs

/-- Descending sort by value. -/
def sortDescBy {α : Type} (value : α → Int) (l : List α) : List α :=
  l.foldr (insertDescBy value) []

/-- Mirror of the scan loop rank := 1; for each row { Rank = rank; rank++ }. -/
def assignMemberRanks (n : Nat) : List MemberRanking → List MemberRanking
  | [] => []
  | x :: xs => { x with rank := n } :: assignMemberRanks (n + 1) xs

/-- Mirror of the scan loop of GetRepoRanking. -/
def assignRepoRanks (n : Nat) : List RepoRanking → List RepoRanking
  | [] => []
  | x :: xs => { x with rank := n } :: assignRepoRanks (n + 1) xs

/-- The LIMIT argument: a non-positive limit defaults to 10. -/
def effectiveLimit (limit : Int) : Nat :=
  if limit ≤ 0 then 10 else limit.toNat

/-- Mirror of sqliteStorage.GetMemberRanking: error on an unknown ranking
type; otherwise filter by owner and window, group by member (distinct members
in appearance order), compute the aggregates, order by value descending, limit
and assign ranks from 1. -/
def getMemberRanking (events : List EventRow) (org : String) (rt : RankingType)
    (tr : TimeRange) (limit : Int) : Except String (List MemberRanking) :=
  if rt.isKnown then
    let filtered := events.filter (rowMatches org "" "" tr)
    let groups := (filtered.map (fun e => e.member)).dedup
    Except.ok (assignMemberRanks 1
      ((sortDescBy (fun r => r.value)
        (groups.map (memberAggregate rt filtered))).take (effectiveLimit limit)))
  else Except.error "unknown ranking type"

/-- Mirror of sqliteStorage.GetRepoRanking. -/
def getRepoRanking (events : List EventRow) (org : String) (rt : RankingType)
    (tr : TimeRange) (limit : Int) : Except String (List RepoRanking) :=
  if rt.isKnown then
    let filtered := events.filter (rowMatches org "" "" tr)
    let groups := (filtered.map (fun e => e.repo)).dedup
    Except.ok (assignRepoRanks 1
      ((sortDescBy (fun r => r.value)
        (groups.map (repoAggregate rt filtered))).take (effectiveLimit limit)))
  else Except.error "unknown ranking type"

/-- Two members with one commit each inside sampleRange: a value tie. -/
def tieEvents : List EventRow :=
  [{ type := "commit", owner := "acme", repo := "r", member := "a",
     timestamp := { date := { year := 2024, month := 1, day := 1 }, sec := 0 },
     additions := 1, deletions := 0 },
   { type := "commit", owner := "acme", repo := "r", member := "b",
     timestamp := { date := { year := 2024, month := 1, day := 1 }, sec := 0 },
     additions := 2, deletions := 0 }]

end Ranking

/-! ### Entity fetchers (githubCollector in internal/collector)

The upstream GitHub API is an oracle: per repository, the successive pages
returned by each list endpoint and the responses of the follow-up detail
calls.  Instants are abstract integers.  GetCommits' window is applied server
side (the Since/Until list options), so it does not appear in the loop;
GetPullRequests and GetDeploys filter client side. -/

namespace Collector

/-- An upstream error together with the HTTP status code of the response that
carried it (none when the response is nil). -/
structure HttpErr where
  status : Option Nat
  msg : String
deriving Repr, DecidableEq

/-- One commit of a ListCommits page: SHA, the optional Author login, the
fallback commit-author name, the commit date and the message. -/
structure CommitItem where
  sha : String
  authorLogin : Option String
  commitAuthorName : Option String
  date : Int
  message : String
deriving Repr, DecidableEq

/-- Result of a GetCommit detail call: the optional Stats (additions,
deletions) and the number of changed files. -/
structure CommitDetail where
  stats : Option (Int × Int)
  filesCount : Nat
deriving Repr, DecidableEq

/-- Mirror of domain.CommitEvent. -/
structure CommitEvent where
  id : String
  org : String
  repo : String
  member : String
  ownerType : String
  timestamp : Int
  sha : String
  message : String
  additions : Int
  deletions : Int
  filesChanged : Int
  createdAt : Int
deriving Repr, DecidableEq

/-- The upstream responses for one repository's commits: the ListCommits pages
in order and the per-SHA GetCommit responses. -/
structure CommitsOracle where
  pages : List (Except HttpErr (List CommitItem))
  detail : String → Except HttpErr CommitDetail

/-- Mirror of the author selection in GetCommits: Author.GetLogin() when
Author is non-nil, else the commit author name, else the empty string. -/
def commitAuthor (c : CommitItem) : String :=
  match c.authorLogin with
  | some l => l
  | none =>
    match c.commitAuthorName with
    | some n => n
    | none => ""

/-- Deterministic commit event id: org-repo-commit-SHA. -/
def commitEventID (org repo sha : String) : String :=
  org ++ "-" ++ repo ++ "-commit-" ++ sha

/-- Construction of one commit event inside GetCommits.  The detail call's
stats are used only when the call succeeded (the err == nil guard) and Stats
is non-nil; a failed detail call leaves additions, deletions and filesChanged
at zero and is not reported. -/
def mkCommitEvent (detail : String → Except HttpErr CommitDetail)
    (org repo : String) (now : Int) (c : CommitItem) : CommitEvent :=
  let stats :=
    match detail c.sha with
    | Except.ok d =>
      ((match d.stats with
        | some ab => ab
        | none => (0, 0)), d.filesCount)
    | Except.error _ => ((0, 0), 0)
  { id := commitEventID org repo c.sha
    org := org
    repo := repo
    member := commitAuthor c
    ownerType := "organization"
    timestamp := c.date
    sha := c.sha
    message := c.message
    additions := stats.1.1
    deletions := stats.1.2
    filesChanged := stats.2
    createdAt := now }

/-- The page loop of GetCommits: a page error whose response status is 409
(empty repository) returns the commits collected so far as a success; any
other page error is propagated; a successful page appends its commits (each
with its gated detail call) and fetching continues with the next page. -/
def getCommitsLoop (detail : String → Except HttpErr CommitDetail)
    (org repo : String) (now : Int) :
    List (Except HttpErr (List CommitItem)) → List CommitEvent →
      Except HttpErr (List CommitEvent)
  | [], acc => Except.ok acc
  | Except.error e :: _, acc =>
    if e.status = some 409 then Except.ok acc else Except.error e
  | Except.ok items :: rest, acc =>
    getCommitsLoop detail org repo now rest
      (acc ++ items.map (mkCommitEvent detail org repo now))

/-- Mirror of githubCollector.GetCommits. -/
def getCommits (o : CommitsOracle) (org repo : String) (now : Int) :
    Except HttpErr (List CommitEvent) :=
  getCommitsLoop o.detail org repo now o.pages []

/-- One pull request of a PullRequests.List page. -/
structure PrItem where
  number : Int
  createdAt : Int
  state : String
  merged : Bool
  mergedAt : Option Int
  userLogin : String
  title : String
deriving Repr, DecidableEq

/-- Mirror of domain.PullRequestEvent. -/
structure PullRequestEvent where
  id : String
  org : String
  repo : String
  member : String
  ownerType : String
  timestamp : Int
  number : Int
  state : String
  title : String
  mergedAt : Option Int
  createdAt : Int
deriving Repr, DecidableEq

/-- The upstream responses for one repository's pull requests, newest first
(the list options sort by creation date descending). -/
structure PrsOracle where
  pages : List (Except HttpErr (List PrItem))

/-- Deterministic pull request event id: org-repo-pr-NUMBER. -/
def prEventID (org repo : String) (number : Int) : String :=
  org ++ "-" ++ repo ++ "-pr-" ++ toString number

/-- Construction of one pull request event: merged pull requests report state
"merged". -/
def mkPrEvent (org repo : String) (now : Int) (p : PrItem) : PullRequestEvent :=
  { id := prEventID org repo p.number
    org := org
    repo := repo
    member := p.userLogin
    ownerType := "organization"
    timestamp := p.createdAt
    number := p.number
    state := if p.merged then "merged" else p.state
    title := p.title
    mergedAt := p.mergedAt
    createdAt := now }

/-- The item loop of one GetPullRequests page: an item created before the
window start short-circuits the whole fetch (results are newest first); an
item created after the window end is skipped; anything else is collected.  The
boolean reports the short circuit. -/
def prPageLoop (org repo : String) (since stop now : Int) :
    List PrItem → List PullRequestEvent → List PullRequestEvent × Bool
  | [], acc => (acc, false)
  | p :: rest, acc =>
    if p.createdAt < since then (acc, true)
    else if stop < p.createdAt then prPageLoop org repo since stop now rest acc
    else prPageLoop org repo since stop now rest (acc ++ [mkPrEvent org repo now p])

/-- The page loop of GetPullRequests: any page error is propagated. -/
def getPrsLoop (org repo : String) (since stop now : Int) :
    List (Except HttpErr (List PrItem)) → List PullRequestEvent →
      Except HttpErr (List PullRequestEvent)
  | [], acc => Except.ok acc
  | Except.error e :: _, _ => Except.error e
  | Except.ok items :: rest, acc =>
    match prPageLoop org repo since stop now items acc with
    | (acc2, true) => Except.ok acc2
    | (acc2, false) => getPrsLoop org repo since stop now rest acc2

/-- Mirror of githubCollector.GetPullRequests. -/
def getPullRequests (o : PrsOracle) (org repo : String) (since stop now : Int) :
    Except HttpErr (List PullRequestEvent) :=
  getPrsLoop org repo since stop now o.pages []

/-- One deployment of a ListDeployments page. -/
structure DeployItem where
  deploymentId : Int
  createdAt : Int
  creator : Option String
  environment : String
deriving Repr, DecidableEq

/-- Mirror of domain.DeployEvent. -/
structure DeployEvent where
  id : String
  org : String
  repo : String
  member : String
  ownerType : String
  timestamp : Int
  environment : String
  status : String
  workflowRunID : String
  createdAt : Int
deriving Repr, DecidableEq

/-- The upstream responses for one repository's deployments: the
ListDeployments pages and the per-deployment ListDeploymentStatuses
responses. -/
structure DeploysOracle where
  pages : List (Except HttpErr (List DeployItem))
  statuses : Int → Except HttpErr (List String)

/-- Deterministic deploy event id: org-repo-deploy-ID. -/
def deployEventID (org repo : String) (deploymentId : Int) : String :=
  org ++ "-" ++ repo ++ "-deploy-" ++ toString deploymentId

/-- Per-deployment processing inside GetDeploys: a deployment outside the
window is skipped; a failed status-list call skips the deployment (the
continue branch); the status is the first returned state, or "unknown" when
there is none. -/
def mkDeployEvent (statuses : Int → Except HttpErr (List String))
    (org repo : String) (since stop now : Int) (d : DeployItem) :
    Option DeployEvent :=
  if d.createdAt < since ∨ stop < d.createdAt then none
  else
    match statuses d.deploymentId with
    | Except.error _ => none
    | Except.ok sts =>
      some
        { id := deployEventID org repo d.deploymentId
          org := org
          repo := repo
          member :=
            match d.creator with
            | some c => c
            | none => ""
          ownerType := "organization"
          timestamp := d.createdAt
          environment := d.environment
          status := sts.headD "unknown"
          workflowRunID := toString d.deploymentId
          createdAt := now }

/-- The page loop of GetDeploys: a page error whose response status is 404
(deployments unsupported) returns the deployments collected so far as a
success; any other page error is propagated. -/
def getDeploysLoop (statuses : Int → Except HttpErr (List String))
    (org repo : String) (since stop now : Int) :
    List (Except HttpErr (List DeployItem)) → List DeployEvent →
      Except HttpErr (List DeployEvent)
  | [], acc => Except.ok acc
  | Except.error e :: _, acc =>
    if e.status = some 404 then Except.ok acc else Except.error e
  | Except.ok items :: rest, acc =>
    getDeploysLoop statuses org repo since stop now rest
      (acc ++ items.filterMap (mkDeployEvent statuses org repo since stop now))

/-- Mirror of githubCollector.GetDeploys. -/
def getDeploys (o : DeploysOracle) (org repo : String) (since stop now : Int) :
    Except HttpErr (List DeployEvent) :=
  getDeploysLoop o.statuses org repo since stop now o.pages []

end Collector

/-! ### Raw events and their storage (internal/domain/event.go and the sqlite
adapter)

The JSON serialisation of the Data map is abstracted to an opaque payload with
a flag saying whether encoding/json can marshal it; domain ToEvent conversions
produce payloads that always marshal. -/

namespace Storage

/-- The Data map of a domain.Event, abstracted at the encoding/json boundary:
an opaque serialised payload and whether marshalling succeeds. -/
structure EventData where
  json : String
  marshalable : Bool
deriving Repr, DecidableEq

/-- The json.Marshal boundary. -/
def marshalData (d : EventData) : Except String String :=
  if d.marshalable then Except.ok d.json else Except.error "json: unsupported type"

/-- Mirror of domain.Event. -/
structure Event where
  id : String
  type : String
  org : String
  repo : String
  member : String
  timestamp : Int
  data : EventData
  ownerType : String
  createdAt : Int
deriving Repr, DecidableEq

/-- Mirror of CommitEvent.ToEvent: kind commit, the commit payload fields in
the Data map (always marshalable). -/
def commitToEvent (c : Collector.CommitEvent) : Event :=
  { id := c.id
    type := "commit"
    org := c.org
    repo := c.repo
    member := c.member
    timestamp := c.timestamp
    data :=
      { json := "sha=" ++ c.sha ++ ";message=" ++ c.message ++
          ";additions=" ++ toString c.additions ++
          ";deletions=" ++ toString c.deletions ++
          ";files_changed=" ++ toString c.filesChanged
        marshalable := true }
    ownerType := c.ownerType
    createdAt := c.createdAt }

/-- Mirror of PullRequestEvent.ToEvent. -/
def prToEvent (p : Collector.PullRequestEvent) : Event :=
  { id := p.id
    type := "pull_request"
    org := p.org
    repo := p.repo
    member := p.member
    timestamp := p.timestamp
    data :=
      { json := "number=" ++ toString p.number ++ ";state=" ++ p.state ++
          ";title=" ++ p.title ++
          (match p.mergedAt with
           | some t => ";merged_at=" ++ toString t
           | none => "")
        marshalable := true }
    ownerType := p.ownerType
    createdAt := p.createdAt }

/-- Mirror of DeployEvent.ToEvent. -/
def deployToEvent (d : Collector.DeployEvent) : Event :=
  { id := d.id
    type := "deploy"
    org := d.org
    repo := d.repo
    member := d.member
    timestamp := d.timestamp
    data :=
      { json := "environment=" ++ d.environment ++ ";status=" ++ d.status ++
          ";workflow_run_id=" ++ d.workflowRunID
        marshalable := true }
    ownerType := d.ownerType
    createdAt := d.createdAt }

/-- One row of the events table (id is the primary key). -/
structure EventsRow where
  id : String
  type : String
  owner : String
  ownerType : String
  repo : String
  member : String
  timestamp : Int
  dataJson : String
  createdAt : Int
deriving Repr, DecidableEq

/-- The row written for an event: the Org field maps to the owner column and
an empty owner type defaults to "organization". -/
def eventToRow (e : Event) (json : String) : EventsRow :=
  { id := e.id
    type := e.type
    owner := e.org
    ownerType := if e.ownerType = "" then "organization" else e.ownerType
    repo := e.repo
    member := e.member
    timestamp := e.timestamp
    dataJson := json
    createdAt := e.createdAt }

/-- INSERT OR REPLACE INTO events keyed by the id primary key: replace the
conflicting row in place, otherwise append. -/
def upsertRow (rows : List EventsRow) (r : EventsRow) : List EventsRow :=
  if rows.any (fun x => x.id == r.id) then
    rows.map (fun x => if x.id == r.id then r else x)
  else rows ++ [r]

/-- Mirror of sqliteStorage.SaveRawEvent: marshal the data, then INSERT OR
REPLACE. -/
def saveRawEvent (rows : List EventsRow) (e : Event) :
    Except String (List EventsRow) :=
  match marshalData e.data with
  | Except.error m => Except.error m
  | Except.ok json => Except.ok (upsertRow rows (eventToRow e json))

/-- The transaction body of sqliteStorage.SaveRawEvents: marshal and insert
each event in order, stopping at the first failure. -/
def saveRawEventsTx (rows : List EventsRow) :
    List Event → Except String (List EventsRow)
  | [] => Except.ok rows
  | e :: es =>
    match marshalData e.data with
    | Except.error m => Except.error m
    | Except.ok json => saveRawEventsTx (upsertRow rows (eventToRow e json)) es

/-- Mirror of sqliteStorage.SaveRawEvents with the deferred tx.Rollback: on
any failure inside the transaction the stored rows are unchanged and the error
is returned; on success the transaction commits the new rows. -/
def saveRawEvents (rows : List EventsRow) (events : List Event) :
    List EventsRow × Option String :=
  match saveRawEventsTx rows events with
  | Except.ok rows2 => (rows2, none)
  | Except.error m => (rows, some m)

/-- The row r is stored and is the only stored row carrying its id (the
primary-key invariant seen from one row). -/
def RowFixed (rows : List EventsRow) (r : EventsRow) : Prop :=
  r ∈ rows ∧ ∀ x ∈ rows, x.id = r.id → x = r

/-- An event whose Data map cannot be marshalled (contains an unsupported
value such as a channel). -/
def badEvent : Event :=
  { id := "e-bad", type := "commit", org := "acme", repo := "r", member := "m",
    timestamp := 1, data := { json := "", marshalable := false },
    ownerType := "organization", createdAt := 7 }

/-- An ordinary marshalable event. -/
def goodEvent : Event :=
  { id := "e-good", type := "commit", org := "acme", repo := "r", member := "m",
    timestamp := 1, data := { json := "sha=a1", marshalable := true },
    ownerType := "organization", createdAt := 7 }

/-- One row of the collection_batches table. -/
structure BatchRow where
  id : String
  mode : String
  owner : String
  startDate : Int
  endDate : Int
  status : String
  createdAt : Int
  updatedAt : Int
deriving Repr, DecidableEq

/-- Mirror of sqliteStorage.CreateOrGetBatch: look up the most recent batch
with the same (mode, owner, start_date, end_date); if one exists return it
(and leave the table unchanged), else insert a new batch whose id defaults to
mode-owner-startUnix-endUnix.  A zero created_at (the time.Time zero value) is
replaced by now. -/
def createOrGetBatch (rows : List BatchRow) (b : BatchRow) (now : Int) :
    BatchRow × List BatchRow :=
  let found := rows.filter (fun r =>
    r.mode == b.mode && r.owner == b.owner &&
    r.startDate == b.startDate && r.endDate == b.endDate)
  match (Ranking.sortDescBy (fun r : BatchRow => r.createdAt) found).head? with
  | some ex =>
    ({ b with
        id := ex.id
        status := ex.status
        createdAt := ex.createdAt
        updatedAt := ex.updatedAt }, rows)
  | none =>
    let newId :=
      if b.id = "" then
        b.mode ++ "-" ++ b.owner ++ "-" ++ toString b.startDate ++ "-" ++
          toString b.endDate
      else b.id
    let nb :=
      { b with
          id := newId
          createdAt := if b.createdAt = 0 then now else b.createdAt
          updatedAt := now }
    (nb, rows ++ [nb])

/-- A fresh batch request for the sample window, as the coordinator would
issue it: empty id and zero created_at. -/
def sampleBatch : BatchRow :=
  { id := "", mode := "organization", owner := "acme", startDate := 0,
    endDate := 10, status := "in_progress", createdAt := 0, updatedAt := 0 }

/-- One row of the batch_repositories table, keyed by
(batch_id, owner, repo_name). -/
structure BatchRepoRow where
  batchId : String
  owner : String
  repoName : String
  status : String
  eventsCount : Int
  startedAt : Option Int
  completedAt : Option Int
  error : String
  createdAt : Int
  updatedAt : Int
deriving Repr, DecidableEq

/-- The startedAt/completedAt/errorMsg values computed at the top of
UpdateBatchRepositoryStatus in both adapters: processing sets a start
timestamp, completed sets a completion timestamp, failed with a non-nil error
records the error text. -/
def statusTimes (status : String) (err : Option String) (now : Int) :
    Option Int × Option Int × String :=
  if status = "processing" then (some now, none, "")
  else if status = "completed" then (none, some now, "")
  else if status = "failed" then
    (none, none,
      match err with
      | some m => m
      | none => "")
  else (none, none, "")

/-- The WHERE clause on the (batch_id, owner, repo_name) key. -/
def keyMatches (batchId owner repoName : String) (r : BatchRepoRow) : Bool :=
  r.batchId == batchId && r.owner == owner && r.repoName == repoName

/-- The SET clause of the UPDATE: COALESCE keeps the stored timestamps when
the new ones are NULL. -/
def applyUpdate (status : String) (eventsCount : Int)
    (startedAt completedAt : Option Int) (errorMsg : String) (now : Int)
    (r : BatchRepoRow) : BatchRepoRow :=
  { r with
    status := status
    eventsCount := eventsCount
    startedAt :=
      match startedAt with
      | some t => some t
      | none => r.startedAt
    completedAt :=
      match completedAt with
      | some t => some t
      | none => r.completedAt
    error := errorMsg
    updatedAt := now }

/-- A pending batch-repository row used on concrete inputs. -/
def pendingRow : BatchRepoRow :=
  { batchId := "batch-1", owner := "acme", repoName := "repo-1",
    status := "pending", eventsCount := 0, startedAt := none,
    completedAt := none, error := "", createdAt := 1, updatedAt := 1 }

/-- Mirror of the sqlite UpdateBatchRepositoryStatus: run the UPDATE on every
row matching the key.  In Go's database/sql an UPDATE that matches zero rows
succeeds with a nil error, so the insert fallback (guarded by
updateErr != nil) never runs on this path and a missing row stays missing. -/
def sqliteUpdateBatchRepositoryStatus (rows : List BatchRepoRow)
    (batchId owner repoName status : String) (eventsCount : Int)
    (err : Option String) (now : Int) : List BatchRepoRow :=
  let t := statusTimes status err now
  rows.map (fun r =>
    if keyMatches batchId owner repoName r then
      applyUpdate status eventsCount t.1 t.2.1 t.2.2 now r
    else r)

/-- Mirror of the postgres SaveBatchRepository: INSERT ... ON CONFLICT
(batch_id, owner, repo_name) DO UPDATE with COALESCE on the timestamps. -/
def postgresSaveBatchRepository (rows : List BatchRepoRow) (nr : BatchRepoRow) :
    List BatchRepoRow :=
  if rows.any (keyMatches nr.batchId nr.owner nr.repoName) then
    rows.map (fun r =>
      if keyMatches nr.batchId nr.owner nr.repoName r then
        applyUpdate nr.status nr.eventsCount nr.startedAt nr.completedAt
          nr.error nr.updatedAt r
      else r)
  else rows ++ [nr]

/-- Mirror of the postgres UpdateBatchRepositoryStatus: run the UPDATE and,
when RowsAffected is zero, insert the row via SaveBatchRepository. -/
def postgresUpdateBatchRepositoryStatus (rows : List BatchRepoRow)
    (batchId owner repoName status : String) (eventsCount : Int)
    (err : Option String) (now : Int) : List BatchRepoRow :=
  let t := statusTimes status err now
  if rows.any (keyMatches batchId owner repoName) then
    rows.map (fun r =>
      if keyMatches batchId owner repoName r then
        applyUpdate status eventsCount t.1 t.2.1 t.2.2 now r
      else r)
  else
    postgresSaveBatchRepository rows
      { batchId := batchId, owner := owner, repoName := repoName
        status := status, eventsCount := eventsCount
        startedAt := t.1, completedAt := t.2.1, error := t.2.2
        createdAt := now, updatedAt := now }

end Storage

/-! ### The collect pipeline (CollectOrganizationData in internal/collector
and the collect command in cmd/cli/main.go)

The concurrent run is sequentialized in repository order: worker goroutines
only share the event sink (guarded by a mutex), the error channel and the
semaphore, so the multiset of events, the set of fetcher calls and the set of
warnings are independent of the interleaving.  The wall clock is the shared
now parameter. -/

namespace Collect

open Collector Storage

/-- One fetcher invocation recorded while the orchestrator runs. -/
inductive FetchCall where
  | commits (repo : String)
  | prs (repo : String)
  | deploys (repo : String)
deriving Repr, DecidableEq

/-- The upstream oracle for a whole organization: the repository listing and,
per repository, the per-kind oracles. -/
structure OrgOracle where
  repos : Except HttpErr (List String)
  commitsFor : String → CommitsOracle
  prsFor : String → PrsOracle
  deploysFor : String → DeploysOracle

/-- The body of one worker goroutine of CollectOrganizationData, which runs
the three fetchers sequentially for its repository: a fetch error sends the
wrapped error on the error channel and returns from the worker, leaving the
events appended to the shared sink so far in place.  Returns the events this
worker contributed, the fetcher calls it made, and its error, if any. -/
def collectRepo (o : OrgOracle) (org r : String) (since stop now : Int) :
    List Event × List FetchCall × Option String :=
  match getCommits (o.commitsFor r) org r now with
  | Except.error e =>
    ([], [FetchCall.commits r],
      some ("failed to get commits for " ++ r ++ ": " ++ e.msg))
  | Except.ok cs =>
    match getPullRequests (o.prsFor r) org r since stop now with
    | Except.error e =>
      (cs.map commitToEvent, [FetchCall.commits r, FetchCall.prs r],
        some ("failed to get pull requests for " ++ r ++ ": " ++ e.msg))
    | Except.ok ps =>
      match getDeploys (o.deploysFor r) org r since stop now with
      | Except.error e =>
        (cs.map commitToEvent ++ ps.map prToEvent,
          [FetchCall.commits r, FetchCall.prs r, FetchCall.deploys r],
          some ("failed to get deployments for " ++ r ++ ": " ++ e.msg))
      | Except.ok ds =>
        (cs.map commitToEvent ++ ps.map prToEvent ++ ds.map deployToEvent,
          [FetchCall.commits r, FetchCall.prs r, FetchCall.deploys r],
          none)

/-- Result of one CollectOrganizationData run: the shared event sink, every
fetcher call made, and the warnings drained from the error channel. -/
structure CollectResult where
  events : List Event
  calls : List FetchCall
  warnings : List String
deriving Repr, DecidableEq

/-- Folding one repository's worker into the accumulated run result: its
events go to the shared sink, its calls to the log, and its error, if any, to
the drained error channel. -/
def collectStep (o : OrgOracle) (org : String) (since stop now : Int)
    (acc : CollectResult) (r : String) : CollectResult :=
  let res := collectRepo o org r since stop now
  { events := acc.events ++ res.1
    calls := acc.calls ++ res.2.1
    warnings :=
      match res.2.2 with
      | some w => acc.warnings ++ [w]
      | none => acc.warnings }

/-- Mirror of githubCollector.CollectOrganizationData: a repository listing
error aborts the call; per-repository fetch errors are only reported as
warnings (the EDGE-001 log-and-continue loop) and the call returns the shared
sink without error.  The function consults no batch state: every repository in
the listing is dispatched to a worker on every invocation. -/
def collectOrganizationData (o : OrgOracle) (org : String)
    (since stop now : Int) : Except HttpErr CollectResult :=
  match o.repos with
  | Except.error e => Except.error e
  | Except.ok rs =>
    Except.ok (rs.foldl (collectStep o org since stop now)
      { events := [], calls := [], warnings := [] })

/-- The persistent store visible to the collect pipeline: the events table,
the collection_batches table and the batch_repositories table. -/
structure Store where
  events : List EventsRow
  batches : List BatchRow
  batchRepos : List BatchRepoRow
deriving Repr, DecidableEq

/-- Mirror of the collect pipeline of runCollect in cmd/cli/main.go
(organization mode, after the repository and member upserts):
CollectOrganizationData, then SaveRawEvents on the returned sink.  No batch is
created, read or updated anywhere on this path; the collection_batches and
batch_repositories tables are never touched. -/
def runCollect (o : OrgOracle) (org : String) (since stop now : Int)
    (st : Store) : Except String (Store × CollectResult) :=
  match collectOrganizationData o org since stop now with
  | Except.error e => Except.error ("failed to collect data: " ++ e.msg)
  | Except.ok res =>
    match saveRawEvents st.events res.events with
    | (rows2, none) => Except.ok ({ st with events := rows2 }, res)
    | (_, some m) => Except.error ("failed to save events: " ++ m)

/-- A commits oracle holding one page with one commit whose SHA is given;
details always succeed. -/
def oneCommitOracle (sha : String) : CommitsOracle :=
  let item : CommitItem :=
    { sha := sha, authorLogin := some "m", commitAuthorName := none,
      date := 5, message := "fix" }
  { pages := [Except.ok [item]]
    detail := fun _ => Except.ok { stats := some (3, 1), filesCount := 2 } }

/-- A commits oracle whose first page fails with an HTTP 500. -/
def failingCommitsOracle : CommitsOracle :=
  { pages := [Except.error { status := some 500, msg := "boom" }]
    detail := fun _ => Except.ok { stats := none, filesCount := 0 } }

/-- An empty pull-request listing. -/
def emptyPrsOracle : PrsOracle := { pages := [Except.ok []] }

/-- An empty deployment listing. -/
def emptyDeploysOracle : DeploysOracle :=
  { pages := [Except.ok []], statuses := fun _ => Except.ok [] }

/-- A one-repository organization whose single repository alpha yields one
commit and nothing else. -/
def sampleOrgOracle : OrgOracle :=
  { repos := Except.ok ["alpha"]
    commitsFor := fun _ => oneCommitOracle "a1"
    prsFor := fun _ => emptyPrsOracle
    deploysFor := fun _ => emptyDeploysOracle }

/-- A three-repository organization in which fetching beta's commits fails
with an HTTP 500 while alpha and gamma succeed. -/
def partialFailureOracle : OrgOracle :=
  { repos := Except.ok ["alpha", "beta", "gamma"]
    commitsFor := fun r =>
      if r = "beta" then failingCommitsOracle
      else if r = "alpha" then oneCommitOracle "a1"
      else oneCommitOracle "c1"
    prsFor := fun _ => emptyPrsOracle
    deploysFor := fun _ => emptyDeploysOracle }

/-- The empty store. -/
def emptyStore : Store := { events := [], batches := [], batchRepos := [] }

/-- The store left by running the collect pipeline on sampleOrgOracle from
the empty store at instant 9: one event row, no batch rows. -/
def sampleRunStore : Store :=
  let row : Storage.EventsRow :=
    { id := "acme-alpha-commit-a1", type := "commit", owner := "acme",
      ownerType := "organization", repo := "alpha", member := "m",
      timestamp := 5,
      dataJson := "sha=a1;message=fix;additions=3;deletions=1;files_changed=2",
      createdAt := 9 }
  { events := [row], batches := [], batchRepos := [] }

/-- The run result matching sampleRunStore. -/
def sampleRunResult : CollectResult :=
  let d : Storage.EventData :=
    { json := "sha=a1;message=fix;additions=3;deletions=1;files_changed=2"
      marshalable := true }
  let ev : Storage.Event :=
    { id := "acme-alpha-commit-a1", type := "commit", org := "acme",
      repo := "alpha", member := "m", timestamp := 5, data := d,
      ownerType := "organization", createdAt := 9 }
  { events := [ev]
    calls := [FetchCall.commits "alpha", FetchCall.prs "alpha",
      FetchCall.deploys "alpha"]
    warnings := [] }

end Collect

/-! ### The worker pool (the semaphore in CollectOrganizationData)

Worker goroutines synchronise only through the buffered channel
make(chan struct{}, 5): a worker sends one token before fetching and receives
it back (deferred) when done, so a send blocks exactly while five tokens are
outstanding.  The transition system below is the channel semantics restricted
to these two operations. -/

namespace Pool

/-- How many workers are in each phase: before the semaphore send (waiting,
blocked or not yet scheduled), between the send and the deferred receive
(running the three fetchers), and after the receive (finished). -/
structure PoolState where
  waiting : Nat
  running : Nat
  finished : Nat
deriving Repr, DecidableEq

/-- The semaphore capacity: make(chan struct{}, 5). -/
def semaphoreCap : Nat := 5

/-- One scheduler step: a send on the semaphore succeeds only while fewer
than semaphoreCap tokens are outstanding; the deferred receive always
succeeds. -/
inductive PoolStep : PoolState → PoolState → Prop where
  | acquire (w r f : Nat) (h : r < semaphoreCap) :
      PoolStep ⟨w + 1, r, f⟩ ⟨w, r + 1, f⟩
  | release (w r f : Nat) :
      PoolStep ⟨w, r + 1, f⟩ ⟨w, r, f + 1⟩

/-- The initial state of a run over n repositories: one worker per
repository, none admitted yet. -/
def initState (n : Nat) : PoolState := { waiting := n, running := 0, finished := 0 }

end Pool

/-- C6: on an acquire (Wait) in a state with remaining <= 10 and reset_at in
the future, the caller suspends until reset_at, remaining is reset to the
per-window ceiling 5000 and reset_at to one hour past the instant at which the
suspension ended; and, independently of the budget, every acquire holds the
lock around no suspension, returns no earlier than lastCall plus the minimum
inter-call delay, and records the return instant as the new lastCall. -/
theorem rateLimiter_wait_spec (s : RateLimiter.State) (now : Int)
    (hrem : s.remaining ≤ 10) (hfut : now < s.resetTime) :
    (RateLimiter.Action.waitUntil s.resetTime ∈ (RateLimiter.wait s now).trace ∧
      (RateLimiter.wait s now).state.remaining = 5000 ∧
      (RateLimiter.wait s now).state.resetTime = s.resetTime + RateLimiter.hourNs) ∧
    (∀ s2 : RateLimiter.State, ∀ now2 : Int,
      RateLimiter.suspensionsUnlocked 0 (RateLimiter.wait s2 now2).trace = true ∧
      s2.lastCall + RateLimiter.minDelayNs ≤ (RateLimiter.wait s2 now2).returnTime ∧
      (RateLimiter.wait s2 now2).state.lastCall = (RateLimiter.wait s2 now2).returnTime) := by
  constructor
  · have hpos : 0 < s.resetTime - now := by omega
    simp only [RateLimiter.wait, if_pos hrem, if_pos hpos]
    by_cases hel : s.resetTime - s.lastCall < RateLimiter.minDelayNs <;>
      simp [hel, RateLimiter.suspensionsUnlocked]
  · intro s2 now2
    simp only [RateLimiter.wait]
    split_ifs <;>
      simp_all [RateLimiter.suspensionsUnlocked] <;> omega

namespace TimeSeries

/-- Every month length lies between 28 and 31 days. -/
theorem daysInMonth_bounds (y m : Nat) :
    28 ≤ daysInMonth y m ∧ daysInMonth y m ≤ 31 := by
  unfold daysInMonth
  split_ifs <;> omega

/-- Truncating an in-range date yields a period start. -/
theorem periodStart_truncate (g : String) (d : Date) (h : d.InRange) :
    PeriodStart g (truncateTimeForGranularity d g) := by
  obtain ⟨h1, h2, h3, h4⟩ := h
  have hb := daysInMonth_bounds d.year d.month
  unfold PeriodStart truncateTimeForGranularity Date.InRange
  split_ifs with hd hm
  · exact ⟨⟨h1, h2, h3, h4⟩, fun hg => by simp [hd] at hg⟩
  · refine ⟨⟨h1, h2, ?_, ?_⟩, fun _ => rfl⟩ <;> dsimp <;> omega
  · exact ⟨⟨h1, h2, h3, h4⟩, fun hg => absurd hg hm⟩

/-- Stepping a period start strictly increases the key and yields another
period start. -/
theorem periodStart_step (g : String) (d : Date) (h : PeriodStart g d) :
    d.key < (getNextPeriodForGranularity d g).key ∧
    PeriodStart g (getNextPeriodForGranularity d g) := by
  obtain ⟨⟨h1, h2, h3, h4⟩, hmon⟩ := h
  have hb := daysInMonth_bounds d.year d.month
  have hb2 := daysInMonth_bounds d.year (d.month + 1)
  have hb3 := daysInMonth_bounds (d.year + 1) 1
  unfold getNextPeriodForGranularity nextDay Date.key PeriodStart Date.InRange
  split_ifs with hd hlt hm hmo hlt2 hm2 <;>
    simp_all <;> omega

/-- A run that starts past the stop date is empty. -/
theorem genPeriodsAux_nil (g : String) (stop : Date) (fuel : Nat) (cur : Date)
    (h : stop.key < cur.key) : genPeriodsAux g stop fuel cur = [] := by
  cases fuel with
  | zero => rfl
  | succ n => simp [genPeriodsAux]; omega

/-- A nonempty run starts with its initial period. -/
theorem genPeriodsAux_head (g : String) (stop : Date) (fuel : Nat) (cur : Date) :
    genPeriodsAux g stop fuel cur = [] ∨
      ∃ rest, genPeriodsAux g stop fuel cur = cur :: rest := by
  cases fuel with
  | zero => exact Or.inl rfl
  | succ n =>
    by_cases h : cur.key ≤ stop.key
    · refine Or.inr ⟨genPeriodsAux g stop n (getNextPeriodForGranularity cur g), ?_⟩
      simp [genPeriodsAux, h]
    · exact Or.inl (by simp [genPeriodsAux, h])

/-- Consecutive generated periods are one granularity unit apart. -/
theorem genPeriodsAux_chain_step (g : String) (stop : Date) :
    ∀ fuel cur, List.Chain' (fun p q => q = getNextPeriodForGranularity p g)
      (genPeriodsAux g stop fuel cur) := by
  intro fuel
  induction fuel with
  | zero => intro cur; simp [genPeriodsAux]
  | succ n ih =>
    intro cur
    simp only [genPeriodsAux]
    split_ifs with h
    · rcases genPeriodsAux_head g stop n (getNextPeriodForGranularity cur g) with
        h0 | ⟨rest, hr⟩
      · simp [h0]
      · rw [hr, List.chain'_cons]
        exact ⟨rfl, hr ▸ ih (getNextPeriodForGranularity cur g)⟩
    · simp

/-- Generated period keys are strictly increasing when the run starts from a
period start. -/
theorem genPeriodsAux_chain_key (g : String) (stop : Date) :
    ∀ fuel cur, PeriodStart g cur →
      List.Chain' (fun p q : Date => p.key < q.key)
        (genPeriodsAux g stop fuel cur) := by
  intro fuel
  induction fuel with
  | zero => intro cur _; simp [genPeriodsAux]
  | succ n ih =>
    intro cur hps
    simp only [genPeriodsAux]
    split_ifs with h
    · obtain ⟨hlt, hps2⟩ := periodStart_step g cur hps
      rcases genPeriodsAux_head g stop n (getNextPeriodForGranularity cur g) with
        h0 | ⟨rest, hr⟩
      · simp [h0]
      · rw [hr, List.chain'_cons]
        exact ⟨hlt, hr ▸ ih _ hps2⟩
    · simp

/-- With sufficient fuel the run reaches the stop date: its last generated
period is at most stop, and one more step would pass stop. -/
theorem genPeriodsAux_coverage (g : String) (stop : Date) :
    ∀ fuel cur, PeriodStart g cur → cur.key ≤ stop.key →
      stop.key + 1 - cur.key ≤ fuel →
      ∃ last ∈ genPeriodsAux g stop fuel cur,
        last.key ≤ stop.key ∧
        stop.key < (getNextPeriodForGranularity last g).key := by
  intro fuel
  induction fuel with
  | zero => intro cur _ h1 h2; omega
  | succ n ih =>
    intro cur hps hle hfuel
    obtain ⟨hlt, hps2⟩ := periodStart_step g cur hps
    simp only [genPeriodsAux, if_pos hle]
    by_cases h2 : (getNextPeriodForGranularity cur g).key ≤ stop.key
    · obtain ⟨last, hmem, hp⟩ := ih (getNextPeriodForGranularity cur g) hps2 h2 (by omega)
      exact ⟨last, List.mem_cons_of_mem _ hmem, hp⟩
    · exact ⟨cur, List.mem_cons_self _ _, hle, by omega⟩

/-- Membership in an insertion step. -/
theorem mem_insertByKey (d x : Date) (l : List Date) :
    x ∈ insertByKey d l ↔ x = d ∨ x ∈ l := by
  induction l with
  | nil => simp [insertByKey]
  | cons a l ih =>
    simp only [insertByKey]
    split_ifs <;> simp_all <;> tauto

/-- Sorting by key preserves membership. -/
theorem mem_sortByKey (x : Date) (l : List Date) : x ∈ sortByKey l ↔ x ∈ l := by
  induction l with
  | nil => simp [sortByKey]
  | cons a l ih =>
    simp only [sortByKey, List.foldr] at *
    rw [mem_insertByKey]
    simp [ih]

/-- The distinct periods are exactly the periods of the rows. -/
theorem mem_distinctPeriods (g : String) (evs : List EventRow) (p : Date) :
    p ∈ distinctPeriods g evs ↔ ∃ e, e ∈ evs ∧ sqlPeriod g e.timestamp = p := by
  unfold distinctPeriods
  rw [mem_sortByKey, List.mem_dedup, List.mem_map]

/-- A successful association lookup returns a stored pair. -/
theorem lookupDate_some_mem (l : List (Date × DetailedTimeSeriesMetric))
    (p : Date) (dp : DetailedTimeSeriesMetric) (h : lookupDate l p = some dp) :
    (p, dp) ∈ l := by
  induction l with
  | nil => simp [lookupDate] at h
  | cons a l ih =>
    obtain ⟨k, v⟩ := a
    simp only [lookupDate] at h
    split_ifs at h with hk
    · cases h; cases hk; exact List.mem_cons_self _ _
    · exact List.mem_cons_of_mem _ (ih h)

/-- A stored key is always found. -/
theorem lookupDate_ne_none (l : List (Date × DetailedTimeSeriesMetric))
    (p : Date) (v : DetailedTimeSeriesMetric) (h : (p, v) ∈ l) :
    lookupDate l p ≠ none := by
  induction l with
  | nil => simp at h
  | cons a l ih =>
    obtain ⟨k, w⟩ := a
    simp only [lookupDate]
    split_ifs with hk
    · simp
    · rcases List.mem_cons.mp h with h0 | h0
      · cases h0; exact absurd rfl hk
      · exact ih h0

/-- Truncation fixes every SQL period. -/
theorem truncate_sqlPeriod (g : String) (t : Timestamp) :
    truncateTimeForGranularity (sqlPeriod g t) g = sqlPeriod g t := by
  unfold truncateTimeForGranularity sqlPeriod
  split_ifs <;> rfl

/-- A period with no rows aggregates to the all-zero point. -/
theorem periodMetric_no_rows (g : String) (evs : List EventRow) (p : Date)
    (h : ∀ e ∈ evs, sqlPeriod g e.timestamp ≠ p) :
    periodMetric g evs p = zeroMetric p := by
  have hf : evs.filter (fun e => sqlPeriod g e.timestamp == p) = [] := by
    rw [List.filter_eq_nil]
    intro e he
    simpa using h e he
  simp [periodMetric, hf, countType, sumCommitField, zeroMetric]

/-- The period of an aggregated point. -/
theorem periodMetric_timestamp (g : String) (evs : List EventRow) (p : Date) :
    (periodMetric g evs p).timestamp = p := rfl

/-- Pointwise value of the gap-filling lookup: the aggregate for the period. -/
theorem fill_lookup_eq (g : String) (evs : List EventRow) (p : Date) :
    (match lookupDate
        (((distinctPeriods g evs).map (periodMetric g evs)).map
          (fun dp => (truncateTimeForGranularity dp.timestamp g, dp))).reverse p with
      | some dp => dp
      | none => zeroMetric p) = periodMetric g evs p := by
  cases hl : lookupDate
      (((distinctPeriods g evs).map (periodMetric g evs)).map
        (fun dp => (truncateTimeForGranularity dp.timestamp g, dp))).reverse p with
  | some dp =>
    have hmem := lookupDate_some_mem _ _ _ hl
    rw [List.mem_reverse, List.mem_map] at hmem
    obtain ⟨dp0, hdp0, heq⟩ := hmem
    rw [List.mem_map] at hdp0
    obtain ⟨p0, hp0, rfl⟩ := hdp0
    obtain ⟨e, _, hpe⟩ := (mem_distinctPeriods g evs p0).mp hp0
    rw [periodMetric_timestamp] at heq
    have htr : truncateTimeForGranularity p0 g = p0 := by
      rw [← hpe]; exact truncate_sqlPeriod g e.timestamp
    rw [htr] at heq
    simp only [Prod.mk.injEq] at heq
    show dp = periodMetric g evs p
    rw [← heq.2, heq.1]
  | none =>
    have hnp : p ∉ distinctPeriods g evs := by
      intro hp
      exact lookupDate_ne_none _ p (periodMetric g evs p)
        (by
          rw [List.mem_reverse, List.mem_map]
          refine ⟨periodMetric g evs p, List.mem_map.mpr ⟨p, hp, rfl⟩, ?_⟩
          rw [periodMetric_timestamp]
          obtain ⟨e, _, hpe⟩ := (mem_distinctPeriods g evs p).mp hp
          have htr : truncateTimeForGranularity p g = p := by
            rw [← hpe]; exact truncate_sqlPeriod g e.timestamp
          rw [htr]) hl
    refine (periodMetric_no_rows g evs p ?_).symm
    intro e he hpe
    exact hnp ((mem_distinctPeriods g evs p).mpr ⟨e, he, hpe⟩)

/-- With at least one grouped row, gap filling yields exactly the per-period
aggregate for every generated period. -/
theorem fillTimeSeriesGaps_eq (tr : TimeRange) (evs : List EventRow)
    (hne : distinctPeriods tr.granularity evs ≠ []) :
    fillTimeSeriesGaps
        ((distinctPeriods tr.granularity evs).map
          (periodMetric tr.granularity evs)) tr =
      (genPeriods tr.granularity (truncateTs tr.start tr.granularity)
          (truncateTs tr.stop tr.granularity)).map
        (periodMetric tr.granularity evs) := by
  unfold fillTimeSeriesGaps
  have hne2 : ((distinctPeriods tr.granularity evs).map
      (periodMetric tr.granularity evs)).isEmpty = false := by
    rw [List.isEmpty_eq_false_iff_exists_mem]
    obtain ⟨p, hp⟩ := List.exists_mem_of_ne_nil _ hne
    exact ⟨periodMetric tr.granularity evs p, List.mem_map.mpr ⟨p, hp, rfl⟩⟩
  rw [if_neg (by simp [hne2])]
  have hfun :
      (fun p =>
        (match lookupDate
            (((distinctPeriods tr.granularity evs).map
              (periodMetric tr.granularity evs)).map
              (fun dp => (truncateTimeForGranularity dp.timestamp tr.granularity, dp))).reverse
            p with
          | some dp => dp
          | none => zeroMetric p)) =
      periodMetric tr.granularity evs :=
    funext (fill_lookup_eq tr.granularity evs)
  dsimp only
  rw [hfun]

/-- Truncation of timestamps is monotone for in-range dates with an in-range
second of day. -/
theorem truncate_key_mono (g : String) (t1 t2 : Timestamp)
    (h1 : t1.date.InRange) (h2 : t2.date.InRange)
    (hs1 : t1.sec < 86400) (hs2 : t2.sec < 86400)
    (hk : t1.key ≤ t2.key) :
    (truncateTs t1 g).key ≤ (truncateTs t2 g).key := by
  have hd : t1.date.key ≤ t2.date.key := by
    unfold Timestamp.key at hk
    omega
  obtain ⟨hm1, hm2, hd1, hd2⟩ := h1
  obtain ⟨hm1b, hm2b, hd1b, hd2b⟩ := h2
  have hb1 := daysInMonth_bounds t1.date.year t1.date.month
  have hb2 := daysInMonth_bounds t2.date.year t2.date.month
  unfold truncateTs truncateTimeForGranularity
  split_ifs
  · exact hd
  · unfold Date.key at *
    dsimp
    omega
  · exact hd

/-- C2 (amended): when the window contains at least one matching stored event,
the time series has exactly one bucket per period start from the truncated
window start to the truncated window end inclusive, consecutive period starts
are exactly one granularity unit apart and strictly increasing, the first
bucket is the truncated window start, the last bucket reaches the truncated
window end, and every bucket whose period contains no matching event has
commits, prs, deploys, additions and deletions all equal to zero.  (The
original claim also covered a window with no events at all; there the code
returns an empty series, see the counterexample.) -/
theorem getTimeSeries_gapFilled (events : List EventRow) (org repo member : String)
    (tr : TimeRange)
    (hsr : tr.start.date.InRange) (her : tr.stop.date.InRange)
    (hss : tr.start.sec < 86400) (hes : tr.stop.sec < 86400)
    (hwin : tr.start.key ≤ tr.stop.key)
    (hne : events.filter (rowMatches org repo member tr) ≠ []) :
    (getTimeSeries events org repo member tr).map (fun b => b.timestamp) =
      genPeriods tr.granularity (truncateTs tr.start tr.granularity)
        (truncateTs tr.stop tr.granularity) ∧
    List.Chain' (fun p q => q = getNextPeriodForGranularity p tr.granularity)
      ((getTimeSeries events org repo member tr).map (fun b => b.timestamp)) ∧
    List.Chain' (fun p q : Date => p.key < q.key)
      ((getTimeSeries events org repo member tr).map (fun b => b.timestamp)) ∧
    ((getTimeSeries events org repo member tr).map (fun b => b.timestamp)).head? =
      some (truncateTs tr.start tr.granularity) ∧
    (∃ last ∈ (getTimeSeries events org repo member tr).map (fun b => b.timestamp),
      last.key ≤ (truncateTs tr.stop tr.granularity).key ∧
      (truncateTs tr.stop tr.granularity).key <
        (getNextPeriodForGranularity last tr.granularity).key) ∧
    (∀ b ∈ getTimeSeries events org repo member tr,
      (∀ e ∈ events, rowMatches org repo member tr e = true →
        sqlPeriod tr.granularity e.timestamp ≠ b.timestamp) →
      b = zeroMetric b.timestamp) := by
  have hDne : distinctPeriods tr.granularity
      (events.filter (rowMatches org repo member tr)) ≠ [] := by
    obtain ⟨e, he⟩ := List.exists_mem_of_ne_nil _ hne
    intro h0
    have hmem := (mem_distinctPeriods tr.granularity
        (events.filter (rowMatches org repo member tr))
        (sqlPeriod tr.granularity e.timestamp)).mpr ⟨e, he, rfl⟩
    rw [h0] at hmem
    simp at hmem
  have hmain : getTimeSeries events org repo member tr =
      (genPeriods tr.granularity (truncateTs tr.start tr.granularity)
          (truncateTs tr.stop tr.granularity)).map
        (periodMetric tr.granularity (events.filter (rowMatches org repo member tr))) := by
    unfold getTimeSeries
    dsimp only
    exact fillTimeSeriesGaps_eq tr (events.filter (rowMatches org repo member tr)) hDne
  have hts : (getTimeSeries events org repo member tr).map (fun b => b.timestamp) =
      genPeriods tr.granularity (truncateTs tr.start tr.granularity)
        (truncateTs tr.stop tr.granularity) := by
    rw [hmain, List.map_map]
    have hcomp : ((fun b : DetailedTimeSeriesMetric => b.timestamp) ∘
        periodMetric tr.granularity (events.filter (rowMatches org repo member tr))) = id := by
      funext p
      simp [periodMetric_timestamp]
    rw [hcomp, List.map_id]
  have hcs : (truncateTs tr.start tr.granularity).key ≤
      (truncateTs tr.stop tr.granularity).key :=
    truncate_key_mono tr.granularity tr.start tr.stop hsr her hss hes hwin
  have hpsStart : PeriodStart tr.granularity (truncateTs tr.start tr.granularity) :=
    periodStart_truncate tr.granularity tr.start.date hsr
  refine ⟨hts, ?_, ?_, ?_, ?_, ?_⟩
  · rw [hts]
    unfold genPeriods
    exact genPeriodsAux_chain_step tr.granularity _ _ _
  · rw [hts]
    unfold genPeriods
    exact genPeriodsAux_chain_key tr.granularity _ _ _ hpsStart
  · rw [hts]
    unfold genPeriods
    obtain ⟨n, hn⟩ : ∃ n, (truncateTs tr.stop tr.granularity).key + 1 -
        (truncateTs tr.start tr.granularity).key = n + 1 :=
      ⟨(truncateTs tr.stop tr.granularity).key -
        (truncateTs tr.start tr.granularity).key, by omega⟩
    rw [hn]
    simp [genPeriodsAux, hcs]
  · rw [hts]
    unfold genPeriods
    exact genPeriodsAux_coverage tr.granularity _ _ _ hpsStart hcs (le_refl _)
  · intro b hb hnoev
    rw [hmain] at hb
    obtain ⟨p, hp, rfl⟩ := List.mem_map.mp hb
    rw [periodMetric_timestamp] at hnoev ⊢
    refine periodMetric_no_rows tr.granularity _ p ?_
    intro e he
    rw [List.mem_filter] at he
    exact hnoev e he.1 he.2

/-- C2 counterexample: over a two-day window with no stored events at all, the
returned time series is empty rather than the two mandated zero-count buckets
(one per period of the window). -/
theorem getTimeSeries_empty_window_counterexample :
    getTimeSeries [] "acme" "" "" sampleRange = [] ∧
    genPeriods "day" { year := 2024, month := 1, day := 1 }
        { year := 2024, month := 1, day := 2 } =
      [{ year := 2024, month := 1, day := 1 },
       { year := 2024, month := 1, day := 2 }] := by
  exact ⟨rfl, rfl⟩

/-- Witness for getTimeSeries_gapFilled on the sample window holding one
commit row. -/
theorem getTimeSeries_gapFilled_witness :
    (getTimeSeries sampleEvents "acme" "" "" sampleRange).map (fun b => b.timestamp) =
      genPeriods sampleRange.granularity (truncateTs sampleRange.start sampleRange.granularity)
        (truncateTs sampleRange.stop sampleRange.granularity) ∧
    List.Chain' (fun p q => q = getNextPeriodForGranularity p sampleRange.granularity)
      ((getTimeSeries sampleEvents "acme" "" "" sampleRange).map (fun b => b.timestamp)) ∧
    List.Chain' (fun p q : Date => p.key < q.key)
      ((getTimeSeries sampleEvents "acme" "" "" sampleRange).map (fun b => b.timestamp)) ∧
    ((getTimeSeries sampleEvents "acme" "" "" sampleRange).map (fun b => b.timestamp)).head? =
      some (truncateTs sampleRange.start sampleRange.granularity) ∧
    (∃ last ∈ (getTimeSeries sampleEvents "acme" "" "" sampleRange).map (fun b => b.timestamp),
      last.key ≤ (truncateTs sampleRange.stop sampleRange.granularity).key ∧
      (truncateTs sampleRange.stop sampleRange.granularity).key <
        (getNextPeriodForGranularity last sampleRange.granularity).key) ∧
    (∀ b ∈ getTimeSeries sampleEvents "acme" "" "" sampleRange,
      (∀ e ∈ sampleEvents, rowMatches "acme" "" "" sampleRange e = true →
        sqlPeriod sampleRange.granularity e.timestamp ≠ b.timestamp) →
      b = zeroMetric b.timestamp) :=
  getTimeSeries_gapFilled sampleEvents "acme" "" "" sampleRange
    (by decide) (by decide) (by decide) (by decide) (by decide) (by decide)

end TimeSeries

namespace Ranking

open TimeSeries

/-- Insertion grows the length by one. -/
theorem insertDescBy_length {α : Type} (value : α → Int) (r : α) (l : List α) :
    (insertDescBy value r l).length = l.length + 1 := by
  induction l with
  | nil => rfl
  | cons x xs ih =>
    simp only [insertDescBy]
    split_ifs <;> simp [ih]

/-- Sorting preserves the length. -/
theorem sortDescBy_length {α : Type} (value : α → Int) (l : List α) :
    (sortDescBy value l).length = l.length := by
  induction l with
  | nil => rfl
  | cons x xs ih =>
    simp only [sortDescBy, List.foldr] at *
    rw [insertDescBy_length, ih, List.length_cons]

/-- Membership in an insertion step. -/
theorem mem_insertDescBy {α : Type} (value : α → Int) (r x : α) (l : List α) :
    x ∈ insertDescBy value r l ↔ x = r ∨ x ∈ l := by
  induction l with
  | nil => simp [insertDescBy]
  | cons a as ih =>
    simp only [insertDescBy]
    split_ifs <;> simp_all <;> tauto

/-- Insertion preserves the descending order by value. -/
theorem pairwise_insertDescBy {α : Type} (value : α → Int) (r : α) (l : List α)
    (h : List.Pairwise (fun a b => value b ≤ value a) l) :
    List.Pairwise (fun a b => value b ≤ value a) (insertDescBy value r l) := by
  induction l with
  | nil => simp [insertDescBy]
  | cons a as ih =>
    obtain ⟨ha, has⟩ := List.pairwise_cons.mp h
    simp only [insertDescBy]
    split_ifs with hlt
    · refine List.pairwise_cons.mpr ⟨?_, h⟩
      intro y hy
      rcases List.mem_cons.mp hy with rfl | hy2
      · omega
      · exact le_trans (ha y hy2) (by omega)
    · refine List.pairwise_cons.mpr ⟨?_, ih has⟩
      intro y hy
      rcases (mem_insertDescBy value r y as).mp hy with rfl | hy2
      · omega
      · exact ha y hy2

/-- The sorted list is non-strictly descending by value. -/
theorem pairwise_sortDescBy {α : Type} (value : α → Int) (l : List α) :
    List.Pairwise (fun a b => value b ≤ value a) (sortDescBy value l) := by
  induction l with
  | nil => simp [sortDescBy]
  | cons a as ih =>
    simp only [sortDescBy, List.foldr] at *
    exact pairwise_insertDescBy value a _ ih

/-- Rank assignment emits consecutive ranks starting at n. -/
theorem assignMemberRanks_ranks (n : Nat) (l : List MemberRanking) :
    (assignMemberRanks n l).map (fun r => r.rank) = List.range' n l.length := by
  induction l generalizing n with
  | nil => rfl
  | cons x xs ih =>
    simp only [assignMemberRanks, List.map_cons, List.length_cons, List.range'_succ]
    rw [ih]

/-- Rank assignment keeps the values. -/
theorem assignMemberRanks_values (n : Nat) (l : List MemberRanking) :
    (assignMemberRanks n l).map (fun r => r.value) = l.map (fun r => r.value) := by
  induction l generalizing n with
  | nil => rfl
  | cons x xs ih => simp [assignMemberRanks, ih]

/-- Rank assignment keeps the length. -/
theorem assignMemberRanks_length (n : Nat) (l : List MemberRanking) :
    (assignMemberRanks n l).length = l.length := by
  induction l generalizing n with
  | nil => rfl
  | cons x xs ih => simp [assignMemberRanks, ih]

/-- Rank assignment emits consecutive ranks starting at n (repositories). -/
theorem assignRepoRanks_ranks (n : Nat) (l : List RepoRanking) :
    (assignRepoRanks n l).map (fun r => r.rank) = List.range' n l.length := by
  induction l generalizing n with
  | nil => rfl
  | cons x xs ih =>
    simp only [assignRepoRanks, List.map_cons, List.length_cons, List.range'_succ]
    rw [ih]

/-- Rank assignment keeps the values (repositories). -/
theorem assignRepoRanks_values (n : Nat) (l : List RepoRanking) :
    (assignRepoRanks n l).map (fun r => r.value) = l.map (fun r => r.value) := by
  induction l generalizing n with
  | nil => rfl
  | cons x xs ih => simp [assignRepoRanks, ih]

/-- Rank assignment keeps the length (repositories). -/
theorem assignRepoRanks_length (n : Nat) (l : List RepoRanking) :
    (assignRepoRanks n l).length = l.length := by
  induction l generalizing n with
  | nil => rfl
  | cons x xs ih => simp [assignRepoRanks, ih]

/-- C5 (amended): for each of the four ranking metrics and every positive
requested limit k, the member ranking and the repository ranking are sorted
descending by the metric value (non-strictly: ties are possible and keep the
storage iteration order, so the original "strictly descending" fails at a tie,
see the counterexample), have length min(k, number of distinct subjects with
events in the window), and their rank fields are exactly 1..length with no
gaps. -/
theorem ranking_spec (events : List TimeSeries.EventRow) (org : String)
    (rt : RankingType) (tr : TimeSeries.TimeRange) (k : Int)
    (hrt : rt.isKnown = true) (hk : 0 < k) :
    (∃ res, getMemberRanking events org rt tr k = Except.ok res ∧
      List.Pairwise (fun a b : Int => b ≤ a) (res.map (fun r => r.value)) ∧
      res.length = min k.toNat
        (((events.filter (TimeSeries.rowMatches org "" "" tr)).map
          (fun e => e.member)).dedup).length ∧
      res.map (fun r => r.rank) = List.range' 1 res.length) ∧
    (∃ res, getRepoRanking events org rt tr k = Except.ok res ∧
      List.Pairwise (fun a b : Int => b ≤ a) (res.map (fun r => r.value)) ∧
      res.length = min k.toNat
        (((events.filter (TimeSeries.rowMatches org "" "" tr)).map
          (fun e => e.repo)).dedup).length ∧
      res.map (fun r => r.rank) = List.range' 1 res.length) := by
  have hlim : effectiveLimit k = k.toNat := by
    unfold effectiveLimit
    rw [if_neg (by omega)]
  constructor
  · simp only [getMemberRanking, hrt, if_true]
    refine ⟨_, rfl, ?_, ?_, ?_⟩
    · rw [assignMemberRanks_values]
      exact List.pairwise_map.mpr
        ((pairwise_sortDescBy (fun r : MemberRanking => r.value) _).sublist
          (List.take_sublist _ _))
    · rw [assignMemberRanks_length, List.length_take, sortDescBy_length,
        List.length_map, hlim]
    · rw [assignMemberRanks_ranks, assignMemberRanks_length]
  · simp only [getRepoRanking, hrt, if_true]
    refine ⟨_, rfl, ?_, ?_, ?_⟩
    · rw [assignRepoRanks_values]
      exact List.pairwise_map.mpr
        ((pairwise_sortDescBy (fun r : RepoRanking => r.value) _).sublist
          (List.take_sublist _ _))
    · rw [assignRepoRanks_length, List.length_take, sortDescBy_length,
        List.length_map, hlim]
    · rw [assignRepoRanks_ranks, assignRepoRanks_length]

/-- C5 counterexample: with two members tied at one commit each, the member
ranking carries the values [1, 1] at ranks 1 and 2, which is not strictly
descending (the value at rank 1 is not greater than the value at rank 2). -/
theorem ranking_strict_desc_counterexample :
    (getMemberRanking tieEvents "acme" RankingType.commits sampleRange 10).toOption =
      some [{ rank := 1, member := "b", value := 1, commits := 1, prs := 0,
              additions := 2, deletions := 0, deploys := 0 },
            { rank := 2, member := "a", value := 1, commits := 1, prs := 0,
              additions := 1, deletions := 0, deploys := 0 }] ∧
    ¬ ((1 : Int) < 1) := by
  constructor
  · decide
  · omega

/-- Witness for ranking_spec on the tied sample with limit 10. -/
theorem ranking_spec_witness :
    (∃ res, getMemberRanking tieEvents "acme" RankingType.commits sampleRange 10 =
        Except.ok res ∧
      List.Pairwise (fun a b : Int => b ≤ a) (res.map (fun r => r.value)) ∧
      res.length = min (10 : Int).toNat
        (((tieEvents.filter (TimeSeries.rowMatches "acme" "" "" sampleRange)).map
          (fun e => e.member)).dedup).length ∧
      res.map (fun r => r.rank) = List.range' 1 res.length) ∧
    (∃ res, getRepoRanking tieEvents "acme" RankingType.commits sampleRange 10 =
        Except.ok res ∧
      List.Pairwise (fun a b : Int => b ≤ a) (res.map (fun r => r.value)) ∧
      res.length = min (10 : Int).toNat
        (((tieEvents.filter (TimeSeries.rowMatches "acme" "" "" sampleRange)).map
          (fun e => e.repo)).dedup).length ∧
      res.map (fun r => r.rank) = List.range' 1 res.length) :=
  ranking_spec tieEvents "acme" RankingType.commits sampleRange 10 rfl
    (by omega)

end Ranking

/-- C9: at every instant of a collect run over any number of repositories, at
most 5 workers are between the semaphore send and its deferred receive, i.e.
processing a repository; the orchestrator never admits a sixth concurrent
worker because the send is only enabled while fewer than 5 tokens are
outstanding. -/
theorem pool_bounded_concurrency (n : Nat) (s : Pool.PoolState)
    (h : Relation.ReflTransGen Pool.PoolStep (Pool.initState n) s) :
    s.running ≤ 5 := by
  induction h with
  | refl => simp [Pool.initState]
  | tail hst step ih =>
    cases step with
    | acquire w r f hlt =>
      unfold Pool.semaphoreCap at hlt
      dsimp
      omega
    | release w r f =>
      dsimp at ih ⊢
      omega

/-- Witness for pool_bounded_concurrency: the state after one worker of three
was admitted. -/
theorem pool_bounded_concurrency_witness :
    (⟨2, 1, 0⟩ : Pool.PoolState).running ≤ 5 :=
  pool_bounded_concurrency 3 ⟨2, 1, 0⟩
    (Relation.ReflTransGen.single (Pool.PoolStep.acquire 2 0 0 (by decide)))

/-- C8: divergence of the two adapters on a missing key.  With an empty
batch_repositories table, the sqlite UpdateBatchRepositoryStatus leaves the
table empty (its UPDATE matches zero rows, which database/sql does not report
as an error, so the insert fallback never runs), while the postgres adapter
checks RowsAffected and creates the row with the completion timestamp, as the
claim requires.  On an existing key both adapters update in place: processing
sets started_at, completed sets completed_at and failed records the error
text. -/
theorem updateBatchRepositoryStatus_divergence :
    Storage.sqliteUpdateBatchRepositoryStatus [] "batch-1" "acme" "repo-1"
        "completed" 5 none 99 = [] ∧
    Storage.postgresUpdateBatchRepositoryStatus [] "batch-1" "acme" "repo-1"
        "completed" 5 none 99 =
      [{ batchId := "batch-1", owner := "acme", repoName := "repo-1",
         status := "completed", eventsCount := 5, startedAt := none,
         completedAt := some 99, error := "", createdAt := 99,
         updatedAt := 99 }] ∧
    Storage.sqliteUpdateBatchRepositoryStatus [Storage.pendingRow] "batch-1"
        "acme" "repo-1" "processing" 0 none 99 =
      [{ batchId := "batch-1", owner := "acme", repoName := "repo-1",
         status := "processing", eventsCount := 0, startedAt := some 99,
         completedAt := none, error := "", createdAt := 1, updatedAt := 99 }] ∧
    Storage.sqliteUpdateBatchRepositoryStatus [Storage.pendingRow] "batch-1"
        "acme" "repo-1" "failed" 0 (some "boom") 99 =
      [{ batchId := "batch-1", owner := "acme", repoName := "repo-1",
         status := "failed", eventsCount := 0, startedAt := none,
         completedAt := none, error := "boom", createdAt := 1,
         updatedAt := 99 }] ∧
    Storage.postgresUpdateBatchRepositoryStatus [Storage.pendingRow] "batch-1"
        "acme" "repo-1" "completed" 4 none 99 =
      [{ batchId := "batch-1", owner := "acme", repoName := "repo-1",
         status := "completed", eventsCount := 4, startedAt := none,
         completedAt := some 99, error := "", createdAt := 1,
         updatedAt := 99 }] := by
  refine ⟨rfl, rfl, rfl, rfl, rfl⟩

namespace Collector

/-- A commit-list page error after any number of successful pages propagates
unless its status is 409. -/
theorem getCommitsLoop_propagates (detail : String → Except HttpErr CommitDetail)
    (org repo : String) (now : Int) (e : HttpErr)
    (rest : List (Except HttpErr (List CommitItem))) (h : ¬ e.status = some 409) :
    ∀ (okPages : List (List CommitItem)) (acc : List CommitEvent),
      getCommitsLoop detail org repo now
        (okPages.map Except.ok ++ Except.error e :: rest) acc =
      Except.error e := by
  intro okPages
  induction okPages with
  | nil =>
    intro acc
    simp [getCommitsLoop, h]
  | cons p ps ih =>
    intro acc
    simp only [List.map_cons, List.cons_append, getCommitsLoop]
    exact ih _

/-- A commit-list page error with status 409 ends the fetch successfully. -/
theorem getCommitsLoop_conflict (detail : String → Except HttpErr CommitDetail)
    (org repo : String) (now : Int) (e : HttpErr)
    (rest : List (Except HttpErr (List CommitItem))) (h : e.status = some 409) :
    ∀ (okPages : List (List CommitItem)) (acc : List CommitEvent),
      ∃ evs, getCommitsLoop detail org repo now
        (okPages.map Except.ok ++ Except.error e :: rest) acc =
      Except.ok evs := by
  intro okPages
  induction okPages with
  | nil =>
    intro acc
    exact ⟨acc, by simp [getCommitsLoop, h]⟩
  | cons p ps ih =>
    intro acc
    simp only [List.map_cons, List.cons_append, getCommitsLoop]
    exact ih _

/-- The item loop of one pull-request page never short-circuits when every
item of the page was created at or after the window start. -/
theorem prPageLoop_no_stop (org repo : String) (since stop now : Int) :
    ∀ (items : List PrItem) (acc : List PullRequestEvent),
      (∀ item ∈ items, since ≤ item.createdAt) →
      (prPageLoop org repo since stop now items acc).2 = false := by
  intro items
  induction items with
  | nil => intro acc _; rfl
  | cons p rest ih =>
    intro acc hall
    unfold prPageLoop
    rw [if_neg (by have := hall p (List.mem_cons_self _ _); omega)]
    split_ifs with h2
    · exact ih _ (fun i hi => hall i (List.mem_cons_of_mem _ hi))
    · exact ih _ (fun i hi => hall i (List.mem_cons_of_mem _ hi))

/-- A pull-request-list page error propagates after any number of successful
pages, provided no earlier page short-circuited the fetch (all earlier items
created at or after the window start); there is no status carve-out for pull
requests. -/
theorem getPrsLoop_propagates (org repo : String) (since stop now : Int)
    (e : HttpErr) (rest : List (Except HttpErr (List PrItem))) :
    ∀ (okPages : List (List PrItem)) (acc : List PullRequestEvent),
      (∀ p ∈ okPages, ∀ item ∈ p, since ≤ item.createdAt) →
      getPrsLoop org repo since stop now
        (okPages.map Except.ok ++ Except.error e :: rest) acc =
      Except.error e := by
  intro okPages
  induction okPages with
  | nil =>
    intro acc _
    rfl
  | cons pg pgs ih =>
    intro acc hall
    simp only [List.map_cons, List.cons_append, getPrsLoop]
    have hstop := prPageLoop_no_stop org repo since stop now pg acc
      (hall pg (List.mem_cons_self _ _))
    cases hpl : prPageLoop org repo since stop now pg acc with
    | mk acc2 stopped =>
      rw [hpl] at hstop
      dsimp only at hstop
      subst hstop
      exact ih _ (fun p hp => hall p (List.mem_cons_of_mem _ hp))

/-- A deployment-list page error after any number of successful pages
propagates unless its status is 404. -/
theorem getDeploysLoop_propagates (statuses : Int → Except HttpErr (List String))
    (org repo : String) (since stop now : Int) (e : HttpErr)
    (rest : List (Except HttpErr (List DeployItem))) (h : ¬ e.status = some 404) :
    ∀ (okPages : List (List DeployItem)) (acc : List DeployEvent),
      getDeploysLoop statuses org repo since stop now
        (okPages.map Except.ok ++ Except.error e :: rest) acc =
      Except.error e := by
  intro okPages
  induction okPages with
  | nil =>
    intro acc
    simp [getDeploysLoop, h]
  | cons p ps ih =>
    intro acc
    simp only [List.map_cons, List.cons_append, getDeploysLoop]
    exact ih _

/-- A deployment-list page error with status 404 ends the fetch
successfully. -/
theorem getDeploysLoop_notFound (statuses : Int → Except HttpErr (List String))
    (org repo : String) (since stop now : Int) (e : HttpErr)
    (rest : List (Except HttpErr (List DeployItem))) (h : e.status = some 404) :
    ∀ (okPages : List (List DeployItem)) (acc : List DeployEvent),
      ∃ evs, getDeploysLoop statuses org repo since stop now
        (okPages.map Except.ok ++ Except.error e :: rest) acc =
      Except.ok evs := by
  intro okPages
  induction okPages with
  | nil =>
    intro acc
    exact ⟨acc, by simp [getDeploysLoop, h]⟩
  | cons p ps ih =>
    intro acc
    simp only [List.map_cons, List.cons_append, getDeploysLoop]
    exact ih _

/-- C7 counterexample: when the per-commit detail call fails (here with HTTP
500), GetCommits does not return the error; it returns the commit event with
additions, deletions and files-changed all zero. -/
theorem getCommits_detail_error_counterexample :
    getCommits
        ⟨[Except.ok [⟨"abc", some "m", none, 5, "fix"⟩]],
          fun _ => Except.error ⟨some 500, "boom"⟩⟩ "acme" "r" 9 =
      Except.ok
        [⟨"acme-r-commit-abc", "acme", "r", "m", "organization", 5, "abc",
          "fix", 0, 0, 0, 9⟩] := by
  rfl

/-- C7 (amended): an upstream error on a list call other than status 409 on
commit listing and status 404 on deployment listing is returned to the caller
(and those two statuses end the fetch successfully); a pull-request-list page
error propagates with no status carve-out, as long as no earlier successful
page short-circuited the fetch (every earlier item created at or after the
window start); but a failure of the per-commit detail call is swallowed: the
commit event is produced with additions, deletions and files-changed equal to
zero, and a failure of the per-deployment status call silently skips that
deployment. -/
theorem fetcher_error_propagation :
    (∀ (detail : String → Except HttpErr CommitDetail) (org repo : String)
        (now : Int) (okPages : List (List CommitItem)) (e : HttpErr)
        (rest : List (Except HttpErr (List CommitItem))),
      ¬ e.status = some 409 →
      getCommits ⟨okPages.map Except.ok ++ Except.error e :: rest, detail⟩
        org repo now = Except.error e) ∧
    (∀ (detail : String → Except HttpErr CommitDetail) (org repo : String)
        (now : Int) (okPages : List (List CommitItem)) (e : HttpErr)
        (rest : List (Except HttpErr (List CommitItem))),
      e.status = some 409 →
      ∃ evs, getCommits ⟨okPages.map Except.ok ++ Except.error e :: rest, detail⟩
        org repo now = Except.ok evs) ∧
    (∀ (detail : String → Except HttpErr CommitDetail) (org repo : String)
        (now : Int) (c : CommitItem) (e : HttpErr),
      detail c.sha = Except.error e →
      (mkCommitEvent detail org repo now c).additions = 0 ∧
      (mkCommitEvent detail org repo now c).deletions = 0 ∧
      (mkCommitEvent detail org repo now c).filesChanged = 0) ∧
    (∀ (org repo : String) (since stop now : Int)
        (okPages : List (List PrItem)) (e : HttpErr)
        (rest : List (Except HttpErr (List PrItem))),
      (∀ p ∈ okPages, ∀ item ∈ p, since ≤ item.createdAt) →
      getPullRequests ⟨okPages.map Except.ok ++ Except.error e :: rest⟩
        org repo since stop now = Except.error e) ∧
    (∀ (statuses : Int → Except HttpErr (List String)) (org repo : String)
        (since stop now : Int) (okPages : List (List DeployItem)) (e : HttpErr)
        (rest : List (Except HttpErr (List DeployItem))),
      ¬ e.status = some 404 →
      getDeploys ⟨okPages.map Except.ok ++ Except.error e :: rest, statuses⟩
        org repo since stop now = Except.error e) ∧
    (∀ (statuses : Int → Except HttpErr (List String)) (org repo : String)
        (since stop now : Int) (okPages : List (List DeployItem)) (e : HttpErr)
        (rest : List (Except HttpErr (List DeployItem))),
      e.status = some 404 →
      ∃ evs, getDeploys ⟨okPages.map Except.ok ++ Except.error e :: rest, statuses⟩
        org repo since stop now = Except.ok evs) ∧
    (∀ (statuses : Int → Except HttpErr (List String)) (org repo : String)
        (since stop now : Int) (d : DeployItem) (e : HttpErr),
      statuses d.deploymentId = Except.error e →
      mkDeployEvent statuses org repo since stop now d = none) := by
  refine ⟨?_, ?_, ?_, ?_, ?_, ?_, ?_⟩
  · intro detail org repo now okPages e rest h
    exact getCommitsLoop_propagates detail org repo now e rest h okPages []
  · intro detail org repo now okPages e rest h
    exact getCommitsLoop_conflict detail org repo now e rest h okPages []
  · intro detail org repo now c e h
    refine ⟨?_, ?_, ?_⟩ <;> simp [mkCommitEvent, h]
  · intro org repo since stop now okPages e rest h
    exact getPrsLoop_propagates org repo since stop now e rest okPages [] h
  · intro statuses org repo since stop now okPages e rest h
    exact getDeploysLoop_propagates statuses org repo since stop now e rest h okPages []
  · intro statuses org repo since stop now okPages e rest h
    exact getDeploysLoop_notFound statuses org repo since stop now e rest h okPages []
  · intro statuses org repo since stop now d e h
    unfold mkDeployEvent
    split_ifs
    · rfl
    · rw [h]

/-- Witness for fetcher_error_propagation at concrete single-page oracles. -/
theorem fetcher_error_propagation_witness :
    getCommits
        ⟨(([] : List (List CommitItem)).map Except.ok) ++
            Except.error ⟨some 500, "boom"⟩ :: [],
          fun _ => Except.ok ⟨none, 0⟩⟩ "acme" "r" 9 =
      Except.error ⟨some 500, "boom"⟩ ∧
    getPullRequests
        ⟨(([] : List (List PrItem)).map Except.ok) ++
            Except.error ⟨some 500, "prfail"⟩ :: []⟩ "acme" "r" 0 10 9 =
      Except.error ⟨some 500, "prfail"⟩ ∧
    getDeploys
        ⟨(([] : List (List DeployItem)).map Except.ok) ++
            Except.error ⟨some 500, "down"⟩ :: [],
          fun _ => Except.ok []⟩ "acme" "r" 0 10 9 =
      Except.error ⟨some 500, "down"⟩ ∧
    (mkCommitEvent (fun _ => Except.error ⟨some 502, "bad"⟩) "acme" "r" 9
        ⟨"abc", some "m", none, 5, "fix"⟩).additions = 0 :=
  ⟨fetcher_error_propagation.1 (fun _ => Except.ok ⟨none, 0⟩) "acme" "r" 9 []
      ⟨some 500, "boom"⟩ [] (by decide),
    fetcher_error_propagation.2.2.2.1 "acme" "r" 0 10 9
      [] ⟨some 500, "prfail"⟩ [] (by simp),
    fetcher_error_propagation.2.2.2.2.1 (fun _ => Except.ok []) "acme" "r" 0 10 9
      [] ⟨some 500, "down"⟩ [] (by decide),
    (fetcher_error_propagation.2.2.1 (fun _ => Except.error ⟨some 502, "bad"⟩)
      "acme" "r" 9 ⟨"abc", some "m", none, 5, "fix"⟩ ⟨some 502, "bad"⟩ rfl).1⟩

end Collector

namespace Storage

/-- Upserting a row whose id is already stored keeps the row count. -/
theorem upsert_length_of_mem_id (rows : List EventsRow) (r : EventsRow)
    (h : ∃ x ∈ rows, x.id = r.id) :
    (upsertRow rows r).length = rows.length := by
  have hany : rows.any (fun x => x.id == r.id) = true := by
    rw [List.any_eq_true]
    obtain ⟨x, hx, he⟩ := h
    exact ⟨x, hx, by simp [he]⟩
  unfold upsertRow
  rw [if_pos hany]
  exact List.length_map _ _

/-- After an upsert the upserted id is stored. -/
theorem upsert_mem_id_self (rows : List EventsRow) (r : EventsRow) :
    ∃ x ∈ upsertRow rows r, x.id = r.id := by
  unfold upsertRow
  split_ifs with hany
  · rw [List.any_eq_true] at hany
    obtain ⟨y, hy, hye⟩ := hany
    refine ⟨r, ?_, rfl⟩
    rw [List.mem_map]
    exact ⟨y, hy, by simp only [hye, if_true]⟩
  · exact ⟨r, by simp, rfl⟩

/-- An upsert never removes a stored id. -/
theorem upsert_mem_id_preserve (rows : List EventsRow) (r : EventsRow)
    (i : String) (h : ∃ x ∈ rows, x.id = i) :
    ∃ x ∈ upsertRow rows r, x.id = i := by
  by_cases hir : i = r.id
  · subst hir
    exact upsert_mem_id_self rows r
  · obtain ⟨x, hx, hxe⟩ := h
    unfold upsertRow
    split_ifs with hany
    · refine ⟨x, ?_, hxe⟩
      rw [List.mem_map]
      refine ⟨x, hx, ?_⟩
      rw [if_neg (by simp [hxe, hir])]
    · exact ⟨x, List.mem_append_left _ hx, hxe⟩

/-- The transaction body never removes a stored id. -/
theorem saveTx_mem_id (evs : List Event) :
    ∀ (rows rows2 : List EventsRow) (i : String),
      (∃ x ∈ rows, x.id = i) →
      saveRawEventsTx rows evs = Except.ok rows2 →
      ∃ x ∈ rows2, x.id = i := by
  induction evs with
  | nil =>
    intro rows rows2 i h htx
    simp only [saveRawEventsTx, Except.ok.injEq] at htx
    exact htx ▸ h
  | cons e es ih =>
    intro rows rows2 i h htx
    simp only [saveRawEventsTx] at htx
    cases hm : marshalData e.data with
    | error m => rw [hm] at htx; cases htx
    | ok json =>
      rw [hm] at htx
      exact ih _ _ i (upsert_mem_id_preserve _ _ i h) htx

/-- Every event given to a successful transaction body ends up stored under
its id. -/
theorem saveTx_new_ids (evs : List Event) :
    ∀ (rows rows2 : List EventsRow),
      saveRawEventsTx rows evs = Except.ok rows2 →
      ∀ e ∈ evs, ∃ x ∈ rows2, x.id = e.id := by
  induction evs with
  | nil => intro rows rows2 _ e he; cases he
  | cons e0 es ih =>
    intro rows rows2 htx e he
    simp only [saveRawEventsTx] at htx
    cases hm : marshalData e0.data with
    | error m => rw [hm] at htx; cases htx
    | ok json =>
      rw [hm] at htx
      rcases List.mem_cons.mp he with rfl | hes
      · exact saveTx_mem_id es _ _ e.id (upsert_mem_id_self rows _) htx
      · exact ih _ _ htx e hes

/-- A successful transaction body whose events all carry already-stored ids
leaves the row count unchanged. -/
theorem saveTx_length_of_ids_present (evs : List Event) :
    ∀ (rows rows2 : List EventsRow),
      (∀ e ∈ evs, ∃ x ∈ rows, x.id = e.id) →
      saveRawEventsTx rows evs = Except.ok rows2 →
      rows2.length = rows.length := by
  induction evs with
  | nil =>
    intro rows rows2 _ htx
    simp only [saveRawEventsTx, Except.ok.injEq] at htx
    rw [← htx]
  | cons e es ih =>
    intro rows rows2 hall htx
    simp only [saveRawEventsTx] at htx
    cases hm : marshalData e.data with
    | error m => rw [hm] at htx; cases htx
    | ok json =>
      rw [hm] at htx
      have hlen : (upsertRow rows (eventToRow e json)).length = rows.length :=
        upsert_length_of_mem_id rows _ (hall e (List.mem_cons_self _ _))
      have hall2 : ∀ e2 ∈ es, ∃ x ∈ upsertRow rows (eventToRow e json), x.id = e2.id :=
        fun e2 he2 => upsert_mem_id_preserve _ _ _
          (hall e2 (List.mem_cons_of_mem _ he2))
      rw [ih _ _ hall2 htx, hlen]

end Storage

namespace Collector

/-- On any fixed page sequence, two successful GetCommits runs with different
detail oracles and clocks produce events with the same ids. -/
theorem getCommitsLoop_ids (detail1 detail2 : String → Except HttpErr CommitDetail)
    (org repo : String) (now1 now2 : Int) :
    ∀ (pages : List (Except HttpErr (List CommitItem)))
      (acc1 acc2 res1 res2 : List CommitEvent),
      acc1.map (fun e => e.id) = acc2.map (fun e => e.id) →
      getCommitsLoop detail1 org repo now1 pages acc1 = Except.ok res1 →
      getCommitsLoop detail2 org repo now2 pages acc2 = Except.ok res2 →
      res1.map (fun e => e.id) = res2.map (fun e => e.id) := by
  intro pages
  induction pages with
  | nil =>
    intro acc1 acc2 res1 res2 hacc h1 h2
    simp only [getCommitsLoop, Except.ok.injEq] at h1 h2
    rw [← h1, ← h2]
    exact hacc
  | cons page rest ih =>
    intro acc1 acc2 res1 res2 hacc h1 h2
    cases page with
    | error e =>
      simp only [getCommitsLoop] at h1 h2
      split_ifs at h1 h2 with h409
      simp only [Except.ok.injEq] at h1 h2
      rw [← h1, ← h2]
      exact hacc
    | ok items =>
      simp only [getCommitsLoop] at h1 h2
      refine ih _ _ _ _ ?_ h1 h2
      rw [List.map_append, List.map_append, hacc]
      congr 1
      rw [List.map_map, List.map_map]
      rfl

end Collector

/-- C3: for every kind of fetch the event id is a pure function of (owner,
repository, kind, upstream natural key) — owner-repo-commit-SHA,
owner-repo-pr-NUMBER, owner-repo-deploy-ID — independent of the clock and of
the follow-up detail responses; fetching the same upstream items twice
produces events with identical ids, and saving the second result set through
the event upsert on top of the first leaves the stored row count unchanged
(zero net new rows). -/
theorem event_identity_spec :
    (∀ (o : Collector.CommitsOracle) (org repo : String) (now1 now2 : Int)
        (res1 res2 : List Collector.CommitEvent),
      Collector.getCommits o org repo now1 = Except.ok res1 →
      Collector.getCommits o org repo now2 = Except.ok res2 →
      res1.map (fun e => e.id) = res2.map (fun e => e.id)) ∧
    (∀ (detail : String → Except Collector.HttpErr Collector.CommitDetail)
        (org repo : String) (now : Int) (c : Collector.CommitItem),
      (Collector.mkCommitEvent detail org repo now c).id =
        org ++ "-" ++ repo ++ "-commit-" ++ c.sha) ∧
    (∀ (org repo : String) (now : Int) (p : Collector.PrItem),
      (Collector.mkPrEvent org repo now p).id =
        org ++ "-" ++ repo ++ "-pr-" ++ toString p.number) ∧
    (∀ (statuses : Int → Except Collector.HttpErr (List String))
        (org repo : String) (since stop now : Int) (d : Collector.DeployItem)
        (ev : Collector.DeployEvent),
      Collector.mkDeployEvent statuses org repo since stop now d = some ev →
      ev.id = org ++ "-" ++ repo ++ "-deploy-" ++ toString d.deploymentId) ∧
    (∀ (rows rows1 rows2 : List Storage.EventsRow)
        (evs1 evs2 : List Storage.Event),
      evs2.map (fun e => e.id) = evs1.map (fun e => e.id) →
      Storage.saveRawEventsTx rows evs1 = Except.ok rows1 →
      Storage.saveRawEventsTx rows1 evs2 = Except.ok rows2 →
      rows2.length = rows1.length) := by
  refine ⟨?_, ?_, ?_, ?_, ?_⟩
  · intro o org repo now1 now2 res1 res2 h1 h2
    exact Collector.getCommitsLoop_ids o.detail o.detail org repo now1 now2
      o.pages [] [] res1 res2 rfl h1 h2
  · intro detail org repo now c
    rfl
  · intro org repo now p
    rfl
  · intro statuses org repo since stop now d ev h
    unfold Collector.mkDeployEvent at h
    split_ifs at h
    cases hs : statuses d.deploymentId with
    | error e =>
      rw [hs] at h
      cases h
    | ok sts =>
      rw [hs] at h
      simp only [Option.some.injEq] at h
      rw [← h]
      rfl
  · intro rows rows1 rows2 evs1 evs2 hids h1 h2
    refine Storage.saveTx_length_of_ids_present evs2 rows1 rows2 ?_ h2
    intro e2 he2
    have hmem : e2.id ∈ evs1.map (fun e => e.id) := by
      rw [← hids]
      exact List.mem_map.mpr ⟨e2, he2, rfl⟩
    obtain ⟨e1, he1, heq⟩ := List.mem_map.mp hmem
    obtain ⟨x, hx, hxe⟩ := Storage.saveTx_new_ids evs1 rows rows1 h1 e1 he1
    exact ⟨x, hx, by rw [hxe, heq]⟩

/-- Witness for event_identity_spec: the same one-commit upstream fetched at
two different instants yields the same id, and re-saving the same event adds
no row. -/
theorem event_identity_spec_witness :
    ([⟨"acme-r-commit-a1", "acme", "r", "m", "organization", 5, "a1", "fix",
        3, 1, 2, 1⟩] : List Collector.CommitEvent).map (fun e => e.id) =
      ([⟨"acme-r-commit-a1", "acme", "r", "m", "organization", 5, "a1", "fix",
        3, 1, 2, 2⟩] : List Collector.CommitEvent).map (fun e => e.id) ∧
    ([{ Storage.goodEvent with createdAt := 8 }].map (fun e => e.id) =
      [Storage.goodEvent].map (fun e => e.id)) ∧
    ([Storage.eventToRow { Storage.goodEvent with createdAt := 8 } "sha=a1"].length =
      [Storage.eventToRow Storage.goodEvent "sha=a1"].length) :=
  ⟨event_identity_spec.1 (Collect.oneCommitOracle "a1") "acme" "r" 1 2 _ _
      rfl rfl,
    rfl,
    event_identity_spec.2.2.2.2 [] _ _ [Storage.goodEvent]
      [{ Storage.goodEvent with createdAt := 8 }] rfl rfl rfl⟩

/-- C10: SaveRawEvents is atomic.  If marshalling any event of the list fails
the enclosing transaction is rolled back and the stored rows are exactly the
rows from before the call; when the call reports no error, every event of the
list is stored under its id. -/
theorem saveRawEvents_atomic (rows : List Storage.EventsRow)
    (events : List Storage.Event) :
    ((Storage.saveRawEvents rows events).2.isSome →
      (Storage.saveRawEvents rows events).1 = rows) ∧
    ((Storage.saveRawEvents rows events).2 = none →
      ∀ e ∈ events, ∃ r ∈ (Storage.saveRawEvents rows events).1, r.id = e.id) := by
  cases htx : Storage.saveRawEventsTx rows events with
  | ok rows2 =>
    simp only [Storage.saveRawEvents, htx]
    constructor
    · intro h
      simp at h
    · intro _ e he
      exact Storage.saveTx_new_ids events rows rows2 htx e he
  | error m =>
    simp only [Storage.saveRawEvents, htx]
    constructor
    · intro _
      trivial
    · intro h
      simp at h

/-- Witness for saveRawEvents_atomic: a failing marshal leaves the store
unchanged, and a successful save stores the event under its id. -/
theorem saveRawEvents_atomic_witness :
    (Storage.saveRawEvents [] [Storage.badEvent]).1 = [] ∧
    ∃ r ∈ (Storage.saveRawEvents [] [Storage.goodEvent]).1,
      r.id = Storage.goodEvent.id :=
  ⟨(saveRawEvents_atomic [] [Storage.badEvent]).1 (by decide),
    (saveRawEvents_atomic [] [Storage.goodEvent]).2 (by decide)
      Storage.goodEvent (by simp)⟩

namespace Storage

/-- After an upsert, the upserted row is stored and owns its id. -/
theorem rowFixed_upsert_self (rows : List EventsRow) (r : EventsRow) :
    RowFixed (upsertRow rows r) r := by
  unfold RowFixed upsertRow
  split_ifs with hany
  · constructor
    · rw [List.any_eq_true] at hany
      obtain ⟨y, hy, hye⟩ := hany
      rw [List.mem_map]
      exact ⟨y, hy, by simp only [hye, if_true]⟩
    · intro x hx hxe
      rw [List.mem_map] at hx
      obtain ⟨y, hy, hgy⟩ := hx
      by_cases hyr : (y.id == r.id) = true
      · rw [if_pos hyr] at hgy
        exact hgy.symm
      · rw [if_neg hyr] at hgy
        rw [← hgy] at hxe
        simp [hxe] at hyr
  · constructor
    · exact List.mem_append_right _ (by simp)
    · intro x hx hxe
      rcases List.mem_append.mp hx with h1 | h1
      · exfalso
        apply hany
        rw [List.any_eq_true]
        exact ⟨x, h1, by simp [hxe]⟩
      · simpa using h1

/-- Upserting a different id leaves a fixed row fixed. -/
theorem rowFixed_upsert_other (rows : List EventsRow) (r r2 : EventsRow)
    (hfix : RowFixed rows r) (hne : r2.id ≠ r.id) :
    RowFixed (upsertRow rows r2) r := by
  obtain ⟨hmem, huniq⟩ := hfix
  unfold upsertRow
  constructor
  · split_ifs with hany
    · rw [List.mem_map]
      refine ⟨r, hmem, ?_⟩
      rw [if_neg (by simp; exact fun h => hne h.symm)]
    · exact List.mem_append_left _ hmem
  · split_ifs with hany
    · intro x hx hxe
      rw [List.mem_map] at hx
      obtain ⟨y, hy, hgy⟩ := hx
      by_cases hyr : (y.id == r2.id) = true
      · rw [if_pos hyr] at hgy
        rw [← hgy] at hxe
        exact absurd hxe hne
      · rw [if_neg hyr] at hgy
        rw [← hgy] at hxe ⊢
        exact huniq y hy hxe
    · intro x hx hxe
      rcases List.mem_append.mp hx with h1 | h1
      · exact huniq x h1 hxe
      · have hx2 : x = r2 := by simpa using h1
        rw [hx2] at hxe
        exact absurd hxe hne

/-- Upserting a row that is already stored and owns its id is a no-op. -/
theorem upsert_of_rowFixed (rows : List EventsRow) (r : EventsRow)
    (h : RowFixed rows r) : upsertRow rows r = rows := by
  obtain ⟨hmem, huniq⟩ := h
  unfold upsertRow
  rw [if_pos (by rw [List.any_eq_true]; exact ⟨r, hmem, by simp⟩)]
  have hid : ∀ l : List EventsRow, (∀ x ∈ l, x.id = r.id → x = r) →
      l.map (fun x => if x.id == r.id then r else x) = l := by
    intro l
    induction l with
    | nil => intro _; rfl
    | cons y ys ih =>
      intro hall
      simp only [List.map_cons]
      rw [ih (fun x hx => hall x (List.mem_cons_of_mem _ hx))]
      by_cases hyr : (y.id == r.id) = true
      · rw [if_pos hyr, hall y (List.mem_cons_self _ _) (by simpa using hyr)]
      · rw [if_neg hyr]
  exact hid rows huniq

/-- Fixed rows survive a transaction body whose events all carry other
ids. -/
theorem rowFixed_saveTx (evs : List Event) :
    ∀ (rows rows2 : List EventsRow) (r : EventsRow),
      RowFixed rows r → (∀ e ∈ evs, e.id ≠ r.id) →
      saveRawEventsTx rows evs = Except.ok rows2 → RowFixed rows2 r := by
  induction evs with
  | nil =>
    intro rows rows2 r h _ htx
    simp only [saveRawEventsTx, Except.ok.injEq] at htx
    exact htx ▸ h
  | cons e es ih =>
    intro rows rows2 r h hne htx
    simp only [saveRawEventsTx] at htx
    cases hm : marshalData e.data with
    | error m =>
      rw [hm] at htx
      cases htx
    | ok json =>
      rw [hm] at htx
      exact ih _ _ r
        (rowFixed_upsert_other rows r _ h (hne e (List.mem_cons_self _ _)))
        (fun e2 he2 => hne e2 (List.mem_cons_of_mem _ he2)) htx

/-- Re-running a successful transaction body over its own result changes
nothing when the saved events carry pairwise distinct ids. -/
theorem saveTx_idem (evs : List Event) :
    ∀ (rows rows1 : List EventsRow),
      (evs.map (fun e => e.id)).Nodup →
      saveRawEventsTx rows evs = Except.ok rows1 →
      saveRawEventsTx rows1 evs = Except.ok rows1 := by
  induction evs with
  | nil =>
    intro rows rows1 _ htx
    simp only [saveRawEventsTx, Except.ok.injEq] at htx ⊢
  | cons e es ih =>
    intro rows rows1 hnd htx
    simp only [saveRawEventsTx] at htx ⊢
    cases hm : marshalData e.data with
    | error m =>
      rw [hm] at htx
      cases htx
    | ok json =>
      rw [hm] at htx
      dsimp only at htx ⊢
      simp only [List.map_cons, List.nodup_cons] at hnd
      have hnotin : ∀ e2 ∈ es, e2.id ≠ e.id := by
        intro e2 he2 heq
        exact hnd.1 (heq ▸ List.mem_map.mpr ⟨e2, he2, rfl⟩)
      have hfix : RowFixed rows1 (eventToRow e json) :=
        rowFixed_saveTx es _ _ _ (rowFixed_upsert_self rows _)
          (fun e2 he2 => hnotin e2 he2) htx
      rw [upsert_of_rowFixed _ _ hfix]
      exact ih _ _ hnd.2 htx

end Storage

namespace Storage

/-- A second CreateOrGetBatch with identical (mode, owner, window) on the
table left by the first returns the first call's batch id. -/
theorem createOrGetBatch_reuse (rows : List BatchRow) (b : BatchRow)
    (now2 : Int) :
    ((createOrGetBatch ((createOrGetBatch rows b now2).2) b now2).1).id =
      ((createOrGetBatch rows b now2).1).id := by
  unfold createOrGetBatch
  dsimp only
  cases hh : (Ranking.sortDescBy (fun r : BatchRow => r.createdAt)
      (rows.filter (fun r =>
        r.mode == b.mode && r.owner == b.owner &&
        r.startDate == b.startDate && r.endDate == b.endDate))).head? with
  | some ex =>
    simp only [hh]
  | none =>
    simp only [hh]
    have hfe : rows.filter (fun r =>
        r.mode == b.mode && r.owner == b.owner &&
        r.startDate == b.startDate && r.endDate == b.endDate) = [] := by
      cases hfl : rows.filter (fun r =>
          r.mode == b.mode && r.owner == b.owner &&
          r.startDate == b.startDate && r.endDate == b.endDate) with
      | nil => rfl
      | cons x l =>
        exfalso
        rw [hfl] at hh
        have hlen := Ranking.sortDescBy_length (fun r : BatchRow => r.createdAt)
          (x :: l)
        rw [List.head?_eq_none_iff] at hh
        rw [hh] at hlen
        simp at hlen
    rw [List.filter_append, hfe]
    simp [Ranking.sortDescBy, Ranking.insertDescBy]

end Storage

/-- C1 (amended): re-invoking collect with identical parameters against an
unchanged upstream leaves the stored event table exactly as the first
invocation left it (same final stored event set) and performs exactly the
same fetcher invocations: the collector consults no batch state, so
repositories completed in the first run are fetched again, and collect itself
creates or reuses no batch — the collection_batches and batch_repositories
tables are untouched — although CreateOrGetBatch called directly with
identical (mode, owner, window) does return the already stored batch id. -/
theorem collect_rerun_spec (o : Collect.OrgOracle) (org : String)
    (since stop now : Int) (st st1 : Collect.Store)
    (res1 : Collect.CollectResult)
    (h1 : Collect.runCollect o org since stop now st = Except.ok (st1, res1))
    (hnd : (res1.events.map (fun e => e.id)).Nodup) :
    Collect.runCollect o org since stop now st1 = Except.ok (st1, res1) ∧
    st1.batches = st.batches ∧
    st1.batchRepos = st.batchRepos ∧
    (∀ (rows : List Storage.BatchRow) (b : Storage.BatchRow) (now2 : Int),
      ((Storage.createOrGetBatch
          ((Storage.createOrGetBatch rows b now2).2) b now2).1).id =
        ((Storage.createOrGetBatch rows b now2).1).id) := by
  unfold Collect.runCollect at h1 ⊢
  cases hco : Collect.collectOrganizationData o org since stop now with
  | error e =>
    rw [hco] at h1
    cases h1
  | ok res =>
    rw [hco] at h1
    dsimp only at h1 ⊢
    unfold Storage.saveRawEvents at h1 ⊢
    cases hsv : Storage.saveRawEventsTx st.events res.events with
    | error m =>
      rw [hsv] at h1
      dsimp only at h1
      cases h1
    | ok rows1 =>
      rw [hsv] at h1
      dsimp only at h1
      simp only [Except.ok.injEq, Prod.mk.injEq] at h1
      obtain ⟨hst, hres⟩ := h1
      subst hres
      have hev : st1.events = rows1 := by rw [← hst]
      have hidem := Storage.saveTx_idem res.events st.events rows1 hnd hsv
      rw [hev, hidem]
      dsimp only
      have hsame : ({ st1 with events := rows1 } : Collect.Store) = st1 := by
        rw [← hst]
      refine ⟨by rw [hsame], ?_, ?_, ?_⟩
      · rw [← hst]
      · rw [← hst]
      · intro rows b now2
        exact Storage.createOrGetBatch_reuse rows b now2

namespace Collect

/-- Events already in the sink survive the remaining workers. -/
theorem foldl_step_events_mono (o : OrgOracle) (org : String)
    (since stop now : Int) :
    ∀ (rs : List String) (acc : CollectResult) (e : Storage.Event),
      e ∈ acc.events →
      e ∈ (rs.foldl (collectStep o org since stop now) acc).events := by
  intro rs
  induction rs with
  | nil => intro acc e he; exact he
  | cons r rest ih =>
    intro acc e he
    rw [List.foldl_cons]
    apply ih
    unfold collectStep
    exact List.mem_append_left _ he

/-- Warnings already drained survive the remaining workers. -/
theorem foldl_step_warnings_mono (o : OrgOracle) (org : String)
    (since stop now : Int) :
    ∀ (rs : List String) (acc : CollectResult) (w : String),
      w ∈ acc.warnings →
      w ∈ (rs.foldl (collectStep o org since stop now) acc).warnings := by
  intro rs
  induction rs with
  | nil => intro acc w hw; exact hw
  | cons r rest ih =>
    intro acc w hw
    rw [List.foldl_cons]
    apply ih
    unfold collectStep
    dsimp only
    cases (collectRepo o org r since stop now).2.2 with
    | some w2 => exact List.mem_append_left _ hw
    | none => exact hw

/-- Every listed repository's contributed events reach the sink and its
error, if any, reaches the drained warnings. -/
theorem foldl_step_contrib (o : OrgOracle) (org : String)
    (since stop now : Int) :
    ∀ (rs : List String) (acc : CollectResult) (r : String), r ∈ rs →
      (∀ e ∈ (collectRepo o org r since stop now).1,
        e ∈ (rs.foldl (collectStep o org since stop now) acc).events) ∧
      (∀ w, (collectRepo o org r since stop now).2.2 = some w →
        w ∈ (rs.foldl (collectStep o org since stop now) acc).warnings) := by
  intro rs
  induction rs with
  | nil => intro acc r hr; cases hr
  | cons r0 rest ih =>
    intro acc r hr
    rcases List.mem_cons.mp hr with rfl | hr2
    · constructor
      · intro e he
        rw [List.foldl_cons]
        apply foldl_step_events_mono
        unfold collectStep
        exact List.mem_append_right _ he
      · intro w hw
        rw [List.foldl_cons]
        apply foldl_step_warnings_mono
        unfold collectStep
        dsimp only
        rw [hw]
        exact List.mem_append_right _ (by simp)
    · rw [List.foldl_cons]
      exact ih _ r hr2

/-- A successful collect pipeline run never touches the batch tables. -/
theorem runCollect_batch_tables (o : OrgOracle) (org : String)
    (since stop now : Int) (st st2 : Store) (r2 : CollectResult)
    (h : runCollect o org since stop now st = Except.ok (st2, r2)) :
    st2.batchRepos = st.batchRepos ∧ st2.batches = st.batches := by
  unfold runCollect at h
  cases hco : collectOrganizationData o org since stop now with
  | error e =>
    rw [hco] at h
    cases h
  | ok res =>
    rw [hco] at h
    dsimp only at h
    unfold Storage.saveRawEvents at h
    cases hsv : Storage.saveRawEventsTx st.events res.events with
    | error m =>
      rw [hsv] at h
      dsimp only at h
      cases h
    | ok rows1 =>
      rw [hsv] at h
      dsimp only at h
      simp only [Except.ok.injEq, Prod.mk.injEq] at h
      obtain ⟨hst, _⟩ := h
      rw [← hst]
      exact ⟨rfl, rfl⟩

end Collect

/-- C4 (amended): if fetching one repository fails during a collect run while
others succeed, the events of every successful repository are still present in
the returned event set, the failed repository's error is reported as a warning
only, and the collect call returns without error — but no batch-repository
status is written: the collect pipeline leaves the batch tables untouched, so
the failed repository is never marked 'failed' in storage. -/
theorem collect_partial_failure (o : Collect.OrgOracle) (org : String)
    (since stop now : Int) (rs : List String) (a b wB : String)
    (hrs : o.repos = Except.ok rs) (ha : a ∈ rs) (hb : b ∈ rs)
    (hberr : (Collect.collectRepo o org b since stop now).2.2 = some wB) :
    ∃ res, Collect.collectOrganizationData o org since stop now =
        Except.ok res ∧
      (∀ e ∈ (Collect.collectRepo o org a since stop now).1, e ∈ res.events) ∧
      wB ∈ res.warnings ∧
      (∀ (st st2 : Collect.Store) (r2 : Collect.CollectResult),
        Collect.runCollect o org since stop now st = Except.ok (st2, r2) →
        st2.batchRepos = st.batchRepos ∧ st2.batches = st.batches) := by
  unfold Collect.collectOrganizationData
  rw [hrs]
  refine ⟨_, rfl, ?_, ?_, ?_⟩
  · intro e he
    exact (Collect.foldl_step_contrib o org since stop now rs
      { events := [], calls := [], warnings := [] } a ha).1 e he
  · exact (Collect.foldl_step_contrib o org since stop now rs
      { events := [], calls := [], warnings := [] } b hb).2 wB hberr
  · intro st st2 r2 h
    exact Collect.runCollect_batch_tables o org since stop now st st2 r2 h

/-- C4 counterexample: with repositories alpha, beta, gamma where beta's
commits fetch fails, the run keeps alpha's and gamma's events and reports the
beta warning, but the batch_repositories table stays empty: beta is never
marked 'failed' with the error text. -/
theorem collect_partial_failure_counterexample :
    (Collect.runCollect Collect.partialFailureOracle "acme" 0 10 9
        Collect.emptyStore).toOption.map
        (fun p => (p.1.batchRepos, p.1.batches, p.2.warnings,
          p.2.events.map (fun e => e.id))) =
      some ([], [], ["failed to get commits for beta: boom"],
        ["acme-alpha-commit-a1", "acme-gamma-commit-c1"]) := by
  decide

/-- Witness for collect_partial_failure on the three-repository oracle with
beta failing. -/
theorem collect_partial_failure_witness :
    ∃ res, Collect.collectOrganizationData Collect.partialFailureOracle "acme"
        0 10 9 = Except.ok res ∧
      (∀ e ∈ (Collect.collectRepo Collect.partialFailureOracle "acme" "alpha"
          0 10 9).1, e ∈ res.events) ∧
      "failed to get commits for beta: boom" ∈ res.warnings ∧
      (∀ (st st2 : Collect.Store) (r2 : Collect.CollectResult),
        Collect.runCollect Collect.partialFailureOracle "acme" 0 10 9 st =
          Except.ok (st2, r2) →
        st2.batchRepos = st.batchRepos ∧ st2.batches = st.batches) :=
  collect_partial_failure Collect.partialFailureOracle "acme" 0 10 9
    ["alpha", "beta", "gamma"] "alpha" "beta"
    "failed to get commits for beta: boom" rfl (by decide) (by decide) rfl

/-- C1 counterexample: the first collect invocation creates no batch at all
(the collection_batches table is empty afterwards, so there is no batch id to
reuse), and a second invocation with identical parameters invokes the commit,
pull-request and deployment fetchers for repository alpha again even though
alpha completed in the first run. -/
theorem collect_rerun_counterexample :
    (Collect.runCollect Collect.sampleOrgOracle "acme" 0 10 9
        Collect.emptyStore).toOption.map
        (fun p => (p.1.batches, p.1.batchRepos, p.2.calls)) =
      some ([], [],
        [Collect.FetchCall.commits "alpha", Collect.FetchCall.prs "alpha",
          Collect.FetchCall.deploys "alpha"]) ∧
    ((Collect.runCollect Collect.sampleOrgOracle "acme" 0 10 9
        Collect.emptyStore).toOption.bind
        (fun p => (Collect.runCollect Collect.sampleOrgOracle "acme" 0 10 9
          p.1).toOption.map (fun q => q.2.calls))) =
      some [Collect.FetchCall.commits "alpha", Collect.FetchCall.prs "alpha",
        Collect.FetchCall.deploys "alpha"] := by
  constructor
  · decide
  · decide

/-- Witness for collect_rerun_spec on the one-repository sample oracle. -/
theorem collect_rerun_spec_witness :
    Collect.runCollect Collect.sampleOrgOracle "acme" 0 10 9
        Collect.sampleRunStore =
      Except.ok (Collect.sampleRunStore, Collect.sampleRunResult) ∧
    Collect.sampleRunStore.batches = Collect.emptyStore.batches ∧
    Collect.sampleRunStore.batchRepos = Collect.emptyStore.batchRepos ∧
    ((Storage.createOrGetBatch
        ((Storage.createOrGetBatch [] Storage.sampleBatch 3).2)
        Storage.sampleBatch 3).1).id =
      ((Storage.createOrGetBatch [] Storage.sampleBatch 3).1).id :=
  let h := collect_rerun_spec Collect.sampleOrgOracle "acme" 0 10 9
    Collect.emptyStore Collect.sampleRunStore Collect.sampleRunResult
    rfl (by decide)
  ⟨h.1, h.2.1, h.2.2.1, h.2.2.2 [] Storage.sampleBatch 3⟩

/-- Witness for rateLimiter_wait_spec at the concrete state
(remaining 5, resetTime 100, lastCall 0) and now = 50. -/
theorem rateLimiter_wait_spec_witness :
    (RateLimiter.Action.waitUntil (100 : Int) ∈
        (RateLimiter.wait ⟨5, 100, 0⟩ 50).trace ∧
      (RateLimiter.wait ⟨5, 100, 0⟩ 50).state.remaining = 5000 ∧
      (RateLimiter.wait ⟨5, 100, 0⟩ 50).state.resetTime =
        100 + RateLimiter.hourNs) ∧
    (∀ s2 : RateLimiter.State, ∀ now2 : Int,
      RateLimiter.suspensionsUnlocked 0 (RateLimiter.wait s2 now2).trace = true ∧
      s2.lastCall + RateLimiter.minDelayNs ≤ (RateLimiter.wait s2 now2).returnTime ∧
      (RateLimiter.wait s2 now2).state.lastCall =
        (RateLimiter.wait s2 now2).returnTime) :=
  rateLimiter_wait_spec ⟨5, 100, 0⟩ 50 (by decide) (by decide)

end GHMetrics
